import Mathlib

/-!
The PDF writer (`pdf.go`) and the typesetter (`afm.go`) of jchv/resume.

A shallow embedding of the Go sources.

* A Go `string` / `[]byte` is a `List Byte`.
* A Go `rune` is a `Nat` (the decoder only produces values in `[0, 0x10FFFF]`).
* A `float64` that is computed with (`TypeSetter`) is a rational number, so
  the arithmetic is exact; a `float64` that is only printed (`PDFNumeric`,
  the operands of the drawing operators) is a value of a type `F` whose
  printing functions are a parameter (`FloatFormat`).
* An `io.Writer` is a transition function on a sink state.
-/

namespace Resume

/-! ## Bytes, strings, runes -/

abbrev Byte := UInt8

abbrev GoString := List Byte

/-- The bytes of an ASCII string literal of the source. -/
def ascii (s : String) : GoString := s.toList.map (fun c => c.toNat.toUInt8)

/-- The constant `utf8.RuneError`. -/
def RuneError : Nat := 0xFFFD

/-- Whether `b` lies in the inclusive byte range `[lo, hi]`. -/
def inRange (lo hi : Nat) (b : Byte) : Bool := decide (lo ≤ b.toNat) && decide (b.toNat ≤ hi)

/-- Go's UTF-8 decoding of the first rune of a string (`utf8.DecodeRuneInString`,
which is also what `for range` over a string does): the rune and the number of
bytes it takes. An invalid or truncated encoding gives `(RuneError, 1)`, the
empty string `(RuneError, 0)`. The second-byte ranges are those of the
library's `acceptRanges` table. -/
def decodeRune : GoString → Nat × Nat
  | [] => (RuneError, 0)
  | p0 :: rest =>
    if p0.toNat < 0x80 then (p0.toNat, 1)
    else if p0.toNat < 0xC2 then (RuneError, 1)
    else if p0.toNat < 0xE0 then
      match rest with
      | b1 :: _ =>
        if inRange 0x80 0xBF b1 then ((p0.toNat % 32) * 64 + b1.toNat % 64, 2)
        else (RuneError, 1)
      | _ => (RuneError, 1)
    else if p0.toNat < 0xF0 then
      match rest with
      | b1 :: b2 :: _ =>
        let lo := if p0.toNat = 0xE0 then 0xA0 else 0x80
        let hi := if p0.toNat = 0xED then 0x9F else 0xBF
        if inRange lo hi b1 && inRange 0x80 0xBF b2 then
          ((p0.toNat % 16) * 4096 + (b1.toNat % 64) * 64 + b2.toNat % 64, 3)
        else (RuneError, 1)
      | _ => (RuneError, 1)
    else if p0.toNat < 0xF5 then
      match rest with
      | b1 :: b2 :: b3 :: _ =>
        let lo := if p0.toNat = 0xF0 then 0x90 else 0x80
        let hi := if p0.toNat = 0xF4 then 0x8F else 0xBF
        if inRange lo hi b1 && inRange 0x80 0xBF b2 && inRange 0x80 0xBF b3 then
          ((p0.toNat % 8) * 262144 + (b1.toNat % 64) * 4096 + (b2.toNat % 64) * 64
            + b3.toNat % 64, 4)
        else (RuneError, 1)
      | _ => (RuneError, 1)
    else (RuneError, 1)

/-- The iterations of `for i, r := range s`, with `i` counted from `i0`: the
byte offset at which each rune starts, and the rune. The fuel bounds the number
of runes; every rune takes at least one byte, so `s.length` is enough
(`rangeFrom_fuel`). -/
def rangeFrom : Nat → Nat → GoString → List (Nat × Nat)
  | 0, _, _ => []
  | _ + 1, _, [] => []
  | fuel + 1, i, b :: rest =>
    let d := decodeRune (b :: rest)
    (i, d.1) :: rangeFrom fuel (i + d.2) ((b :: rest).drop d.2)

/-- The iterations `(i, r)` of `for i, r := range s`. -/
def rangeString (s : GoString) : List (Nat × Nat) := rangeFrom s.length 0 s

/-! ## Integer formatting (`fmt`, `strconv`) -/

/-- The digit `d < 16` as a character of `"0123456789abcdef"`. -/
def digitByte (d : Nat) : Byte := if d < 10 then (48 + d).toUInt8 else (87 + d).toUInt8

/-- The digits of `n` in base `b`, most significant first, in front of `acc`. -/
def formatDigits (b : Nat) : Nat → Nat → List Byte → List Byte
  | 0, _, acc => acc
  | fuel + 1, n, acc =>
    if n < b then digitByte n :: acc
    else formatDigits b fuel (n / b) (digitByte (n % b) :: acc)

/-- A natural number printed in base `b` without padding, as by
`strconv.FormatInt(n, b)` and, for `b = 10`, the verb `%d`. -/
def formatNat (b n : Nat) : List Byte := formatDigits b (n + 1) n []

/-- The verb `%d` at an `int`. -/
def formatInt (i : Int) : List Byte :=
  if i < 0 then 45 :: formatNat 10 i.natAbs else formatNat 10 i.natAbs

/-- The verb `%010d` at a non-negative `int`: zeros on the left up to a width
of ten, and no truncation of a longer number. -/
def formatPad10 (n : Nat) : List Byte :=
  List.replicate (10 - (formatNat 10 n).length) 48 ++ formatNat 10 n

/-! ## `PDFName` -/

/-- The body of the loop of `PDFName.WritePDF`: the bytes appended for the rune `c`. -/
def PDFName.escapeRune (c : Nat) : List Byte :=
  if 33 ≤ c ∧ c ≤ 126 then [c.toUInt8] else 35 :: formatNat 16 c

/-- The slice `escaped` that `PDFName.WritePDF` hands to the writer. -/
def PDFName.escaped (n : GoString) : List Byte :=
  (rangeString n).foldl (fun esc ir => esc ++ PDFName.escapeRune ir.2) [47]

/-! ## The typesetter (`afm.go`) -/

/-- The font metrics: `RuneWidth` is the map `map[rune]int`; a rune that is not a
key of the map reads as the zero value `0`. -/
structure FontMetrics where
  RuneWidth : Nat → Int

/-- `FontMetrics.Width`: the width of a string at a given point size. -/
def FontMetrics.Width (m : FontMetrics) (pt : ℚ) (text : GoString) : ℚ :=
  (rangeString text).foldl (fun w ir => w + (m.RuneWidth ir.2 : ℚ) * pt / 1000) 0

structure TypeSetter where
  Metrics : FontMetrics
  Pt : ℚ
  LineHeight : ℚ
  X1 : ℚ
  Y1 : ℚ
  X2 : ℚ

structure OutLine where
  X : ℚ
  Y : ℚ
  Pt : ℚ
  Text : GoString
  deriving DecidableEq

/-- The slice expression `s[lo:hi]` of Go: it panics (`none`) unless
`0 ≤ lo ≤ hi ≤ len(s)`. -/
def slice (s : GoString) (lo hi : Int) : Option GoString :=
  if 0 ≤ lo ∧ lo ≤ hi ∧ hi ≤ (s.length : Int) then
    some ((s.drop lo.toNat).take (hi.toNat - lo.toNat))
  else none

/-- The slice expression `s[lo:]`. -/
def sliceFrom (s : GoString) (lo : Int) : Option GoString := slice s lo s.length

/-- How the inner loop of `Set` ends: at `continue Outer`, or with the range
exhausted. Both carry the value of the variable `lastBreak` at that point. -/
inductive Scan where
  | wrapped (lastBreak : Int)
  | exhausted (lastBreak : Int)
  deriving DecidableEq

/-- The inner loop of `TypeSetter.Set` over the iterations `(i, r)` of
`range Text[start:]`, from the current `lastBreak` and `w`. -/
def TypeSetter.scan (s : TypeSetter) (avail : ℚ) : List (Nat × Nat) → Int → ℚ → Scan
  | [], lastBreak, _ => .exhausted lastBreak
  | (i, r) :: rest, lastBreak, w =>
    let lastBreak := if r = 32 ∨ r = 45 then (i : Int) else lastBreak
    let w := w + (s.Metrics.RuneWidth r : ℚ) * s.Pt / 1000
    if w ≥ avail ∧ lastBreak ≠ -1 then .wrapped lastBreak
    else TypeSetter.scan s avail rest lastBreak w

/-- What a call of `TypeSetter.Set` comes to: it returns the lines and the new
Y position, or it panics on a slice out of range. `outOfFuel` is the model's
own: the outer loop was cut off before it ended (`Set_ne_outOfFuel`: this
does not happen). -/
inductive SetResult where
  | returned (lines : List OutLine) (y : ℚ)
  | panicked
  | outOfFuel
  deriving DecidableEq

/-- The loop `Outer` of `TypeSetter.Set`, entered with the variables `y`,
`start`, `lastBreak` and `result`, for at most `fuel` iterations. -/
def TypeSetter.outer (s : TypeSetter) (Text : GoString) :
    Nat → ℚ → Int → Int → List OutLine → SetResult
  | 0, _, _, _, _ => .outOfFuel
  | fuel + 1, y, start, lastBreak, result =>
    let y := y - s.LineHeight
    match sliceFrom Text start with
    | none => .panicked
    | some rest =>
      match s.scan (s.X2 - s.X1) (rangeString rest) lastBreak 0 with
      | .wrapped lastBreak =>
        match slice Text start (start + lastBreak) with
        | none => .panicked
        | some text =>
          TypeSetter.outer s Text fuel y (start + lastBreak + 1) lastBreak
            (result ++ [{ X := s.X1, Y := y, Pt := s.Pt, Text := text }])
      | .exhausted _ =>
        .returned (result ++ [{ X := s.X1, Y := y, Pt := s.Pt, Text := rest }]) y

/-- `TypeSetter.Set`: typesetting of `Text`, the output lines and the new Y
position. Every iteration of `Outer` but the last moves `start` forward by at
least one byte, and `start` cannot pass `len(Text)` without a panic, so
`len(Text) + 2` iterations are enough. -/
def TypeSetter.Set (s : TypeSetter) (Text : GoString) : SetResult :=
  s.outer Text (Text.length + 2) s.Y1 0 (-1) []

/-! ## Writers (`io.Writer`) -/

/-- A Go `error` value. -/
structure Error where
  msg : String
  deriving DecidableEq

/-- What one call `Write(p)` of an `io.Writer` returns. The interface
requires `0 ≤ n ≤ len(p)` and a non-nil error whenever `n < len(p)`, so a
call either takes all of `p` and returns `(len(p), nil)`, which is `ok`, or
returns `(n, err)` with `err` non-nil, which is `fail n err`. -/
inductive WriteResult where
  | ok
  | fail (n : Nat) (err : Error)
  deriving DecidableEq

/-- An `io.Writer` with internal state `σ`: the method `Write`. -/
abbrev Writer (σ : Type) := σ → List Byte → WriteResult × σ

/-- The number of bytes that a call `Write(p)` reports as written. -/
def WriteResult.n (r : WriteResult) (p : List Byte) : Nat :=
  match r with
  | .ok => p.length
  | .fail n _ => n

/-- The error that a call of `Write` returns (`none` is `nil`). -/
def WriteResult.err : WriteResult → Option Error
  | .ok => none
  | .fail _ e => some e

/-- The statement `_, err := w.Write(p)` (also `io.WriteString(w, p)`, which
is one call of `Write`): the error and the new state of the sink. -/
def write {σ : Type} (w : Writer σ) (p : List Byte) (s : σ) : Option Error × σ :=
  ((w s p).1.err, (w s p).2)

/-- The idiom `if err != nil { return err }` between two steps: the second
step runs from the state the first one left, unless the first one failed. -/
def andThen {σ : Type} (r : Option Error × σ) (f : σ → Option Error × σ) :
    Option Error × σ :=
  match r with
  | (none, s) => f s
  | (some e, s) => (some e, s)

/-- A `bytes.Buffer` as a writer: it appends, and never fails. -/
def bufferWriter : Writer GoString := fun b p => (.ok, b ++ p)

/-- The call `io.Copy(w, &b)` for a `bytes.Buffer` `b`, which is
`b.WriteTo(w)`: one call of `Write` with the whole content, and none when the
buffer is empty. (Its `io.ErrShortWrite` and its panic on an invalid count need
a `Write` that returns `n ≠ len(p)` without an error; see `WriteResult`.) -/
def bufferWriteTo {σ : Type} (w : Writer σ) (b : GoString) (s : σ) : Option Error × σ :=
  if b.length > 0 then write w b s else (none, s)

/-- `hex.EncodeToString`: two lower-case hexadecimal digits per byte. -/
def hexEncode (p : List Byte) : List Byte :=
  (p.map fun b => [digitByte (b.toNat / 16), digitByte (b.toNat % 16)]).flatten

/-- The call `hex.NewEncoder(w).Write(p)`: the encoder hands the digits to `w`
in pieces of at most 1024 bytes (512 bytes of `p`) and stops at the first
error. The fuel bounds the number of pieces; `p.length` is enough
(`hexPieces_fuel`). -/
def hexEncoderWrite {σ : Type} (w : Writer σ) : Nat → List Byte → σ → Option Error × σ
  | 0, _, s => (none, s)
  | fuel + 1, p, s =>
    if p.length > 0 then
      andThen (write w (hexEncode (p.take 512)) s) (hexEncoderWrite w fuel (p.drop 512))
    else (none, s)

/-! ## The PDF objects (`pdf.go`) -/

/-- The printing of `float64` values by the Go library, for a type `F` that
stands for `float64`. -/
structure FloatFormat (F : Type) where
  /-- The call `strconv.FormatFloat(x, 'f', -1, 64)`. -/
  formatFloat : F → List Byte
  /-- The verb `%f`. -/
  verbF : F → List Byte
  /-- The verb `%.2f`. -/
  verbF2 : F → List Byte
  /-- The conversion `float64(n)` of an `int`. -/
  ofInt : Int → F

/-- The types that implement `PDFObject`, except `PDFDocument`. A
`PDFDictionary` is a Go map: here it is the list of its entries in the order
in which `range` visits them, which the language leaves open. -/
inductive PDFObject (F : Type) where
  | raw (r : GoString)
  | boolean (b : Bool)
  | reference (n : Int)
  | numeric (n : F)
  | name (n : GoString)
  | string (d : GoString)
  | array (a : List (PDFObject F))
  | dictionary (d : List (GoString × PDFObject F))
  | text (R G B : F) (Font : GoString) (FontSize X Y : F) (Text : GoString)
  | rule (Width R G B X1 X2 Y : F)
  | stream (s : List (PDFObject F))

/-- `PDFString.WritePDF`. -/
def PDFString.WritePDF {σ : Type} (d : GoString) (w : Writer σ) (s : σ) : Option Error × σ :=
  andThen (write w (ascii "<") s) fun s =>
  andThen (hexEncoderWrite w d.length d s) fun s =>
  write w (ascii ">") s

mutual
/-- The method `WritePDF` of each object type, on a writer `w` in state `s`:
the returned error and the state of the writer afterwards. -/
def PDFObject.WritePDF {F : Type} (fl : FloatFormat F) :
    PDFObject F → (σ : Type) → Writer σ → σ → Option Error × σ
  | .raw r, _, w, s => write w r s
  | .boolean b, _, w, s =>
    match b with
    | true => write w (ascii "true") s
    | false => write w (ascii "false") s
  | .reference n, _, w, s => write w (formatInt n ++ ascii " " ++ formatInt 0 ++ ascii " R") s
  | .numeric n, _, w, s => write w (fl.formatFloat n) s
  | .name n, _, w, s => write w (PDFName.escaped n) s
  | .string d, _, w, s => PDFString.WritePDF d w s
  | .array a, σ, w, s =>
    andThen (write w (ascii "[ ") s) fun s =>
    andThen (PDFArray.writeElems fl a σ w s) fun s =>
    write w (ascii " ]") s
  | .dictionary d, σ, w, s =>
    andThen (write w (ascii "<<\n") s) fun s =>
    andThen (PDFDictionary.writeEntries fl d σ w s) fun s =>
    write w (ascii ">>") s
  | .text R G B Font FontSize X Y Text, _, w, s =>
    andThen (write w (ascii "BT\n") s) fun s =>
    andThen (write w (fl.verbF R ++ ascii " " ++ fl.verbF G ++ ascii " " ++ fl.verbF B
      ++ ascii " rg\n") s) fun s =>
    andThen (write w (ascii "/" ++ Font ++ ascii " " ++ fl.verbF FontSize ++ ascii " Tf\n") s)
      fun s =>
    andThen (write w (fl.verbF2 X ++ ascii " " ++ fl.verbF2 Y ++ ascii " Td\n") s) fun s =>
    andThen (PDFString.WritePDF Text w s) fun s =>
    write w (ascii " Tj\nET") s
  | .rule Width R G B X1 X2 Y, _, w, s =>
    andThen (write w (fl.verbF Width ++ ascii " w\n") s) fun s =>
    andThen (write w (fl.verbF R ++ ascii " " ++ fl.verbF G ++ ascii " " ++ fl.verbF B
      ++ ascii " RG\n") s) fun s =>
    andThen (write w (fl.verbF2 X1 ++ ascii " " ++ fl.verbF2 Y ++ ascii " m\n") s) fun s =>
    write w (fl.verbF2 X2 ++ ascii " " ++ fl.verbF2 Y ++ ascii " l s\n") s
  | .stream items, _, w, s =>
    match PDFStream.writeItems fl items 0 GoString bufferWriter [] with
    | (some e, _) => (some e, s)
    | (none, b) =>
      andThen (write w (ascii "<< /Length " ++ formatNat 10 b.length ++ ascii " >>\nstream\n") s)
        fun s =>
      andThen (bufferWriteTo w b s) fun s =>
      write w (ascii "\nendstream\n") s
/-- The loop `for _, v := range a` of `PDFArray.WritePDF`. -/
def PDFArray.writeElems {F : Type} (fl : FloatFormat F) :
    List (PDFObject F) → (σ : Type) → Writer σ → σ → Option Error × σ
  | [], _, _, s => (none, s)
  | v :: rest, σ, w, s =>
    andThen (PDFObject.WritePDF fl v σ w s) fun s =>
    andThen (write w [32] s) fun s =>
    PDFArray.writeElems fl rest σ w s
/-- The loop `for k, v := range d` of `PDFDictionary.WritePDF`. -/
def PDFDictionary.writeEntries {F : Type} (fl : FloatFormat F) :
    List (GoString × PDFObject F) → (σ : Type) → Writer σ → σ → Option Error × σ
  | [], _, _, s => (none, s)
  | (k, v) :: rest, σ, w, s =>
    andThen (write w (ascii "/" ++ k ++ ascii " ") s) fun s =>
    andThen (PDFObject.WritePDF fl v σ w s) fun s =>
    andThen (write w [10] s) fun s =>
    PDFDictionary.writeEntries fl rest σ w s
/-- The loop `for i, obj := range s` of `PDFStream.WritePDF`, from index `i`,
on the buffer `b`. -/
def PDFStream.writeItems {F : Type} (fl : FloatFormat F) :
    List (PDFObject F) → Nat → (σ : Type) → Writer σ → σ → Option Error × σ
  | [], _, _, _, b => (none, b)
  | obj :: rest, i, σ, w, b =>
    andThen (if i ≠ 0 then write w [10] b else (none, b)) fun b =>
    andThen (PDFObject.WritePDF fl obj σ w b) fun b =>
    PDFStream.writeItems fl rest (i + 1) σ w b
end

/-! ## The document (`pdf.go`) -/

/-- The struct `WriteCounter`: the wrapped writer (here its state) and the
count of bytes written. -/
structure WriteCounter (σ : Type) where
  Writer : σ
  Count : Nat

/-- `WriteCounter.Write`, for the wrapped writer `w`. -/
def WriteCounter.Write {σ : Type} (w : Resume.Writer σ) :
    Resume.Writer (WriteCounter σ) := fun c b =>
  ((w c.Writer b).1, { Writer := (w c.Writer b).2, Count := c.Count + (w c.Writer b).1.n b })

structure PDFDocument (F : Type) where
  Objects : List (PDFObject F)

/-- The string `fmt.Sprintf("%d %d obj\n", i+1, 0)` for the loop index `i`. -/
def PDFDocument.objLine (i : Nat) : GoString :=
  formatInt (i + 1) ++ ascii " " ++ formatInt 0 ++ ascii " obj\n"

/-- The string `fmt.Sprintf("xref\n0 %d\n0000000000 65535 f\r\n", len(objOffsets)+1)`
for `n` recorded offsets. -/
def PDFDocument.xrefHead (n : Nat) : GoString :=
  ascii "xref\n0 " ++ formatInt (n + 1) ++ ascii "\n0000000000 65535 f\r\n"

/-- The string `fmt.Sprintf("%010d 00000 n\r\n", offset)`. -/
def PDFDocument.xrefEntry (offset : Nat) : GoString :=
  formatPad10 offset ++ ascii " 00000 n\r\n"

/-- The string `fmt.Sprintf("\n\nstartxref\n%d\n%%%%EOF\n", xrefOffset)`. -/
def PDFDocument.startxref (xrefOffset : Nat) : GoString :=
  ascii "\n\nstartxref\n" ++ formatInt xrefOffset ++ ascii "\n%%EOF\n"

/-- The loop `for i, n := range d.Objects` of `PDFDocument.WritePDF`, from
index `i` with the offsets `objOffsets` recorded so far, on the counting
writer: the offsets recorded, the error and the state of the counter. -/
def PDFDocument.writeObjects {F σ : Type} (fl : FloatFormat F) (w : Writer σ) :
    List (PDFObject F) → Nat → List Nat → WriteCounter σ →
      List Nat × (Option Error × WriteCounter σ)
  | [], _, objOffsets, c => (objOffsets, (none, c))
  | n :: rest, i, objOffsets, c =>
    let objOffsets := objOffsets ++ [c.Count]
    match
      (andThen (write (WriteCounter.Write w) (PDFDocument.objLine i) c) fun c =>
        andThen (PDFObject.WritePDF fl n _ (WriteCounter.Write w) c) fun c =>
        write (WriteCounter.Write w) (ascii "\nendobj\n\n") c) with
    | (some e, c) => (objOffsets, (some e, c))
    | (none, c) => PDFDocument.writeObjects fl w rest (i + 1) objOffsets c

/-- The loop `for _, offset := range objOffsets` of `PDFDocument.WritePDF`. -/
def PDFDocument.writeOffsets {σ : Type} (w : Writer σ) : List Nat → σ → Option Error × σ
  | [], s => (none, s)
  | offset :: rest, s =>
    andThen (write w (PDFDocument.xrefEntry offset) s) (PDFDocument.writeOffsets w rest)

/-- The map literal `trailer` of `PDFDocument.WritePDF`, for `n` recorded
offsets. The order in which `range` visits its two keys is the parameter
`sizeFirst`. -/
def PDFDocument.trailer {F : Type} (fl : FloatFormat F) (n : Nat) (sizeFirst : Bool) :
    PDFObject F :=
  if sizeFirst then
    .dictionary [(ascii "Size", .numeric (fl.ofInt (n + 1))), (ascii "Root", .reference 1)]
  else
    .dictionary [(ascii "Root", .reference 1), (ascii "Size", .numeric (fl.ofInt (n + 1)))]

/-- `PDFDocument.WritePDF` on the writer `w` in state `s`. -/
def PDFDocument.WritePDF {F σ : Type} (fl : FloatFormat F) (d : PDFDocument F)
    (sizeFirst : Bool) (w : Writer σ) (s : σ) : Option Error × σ :=
  let r :=
    andThen (write (WriteCounter.Write w) (ascii "%PDF-1.4\n\n") { Writer := s, Count := 0 })
      fun c =>
    match PDFDocument.writeObjects fl w d.Objects 0 [] c with
    | (_, (some e, c)) => (some e, c)
    | (objOffsets, (none, c)) =>
      let xrefOffset := c.Count
      andThen (write (WriteCounter.Write w) (PDFDocument.xrefHead objOffsets.length) c) fun c =>
      andThen (PDFDocument.writeOffsets (WriteCounter.Write w) objOffsets c) fun c =>
      andThen (write (WriteCounter.Write w) (ascii "\ntrailer\n") c) fun c =>
      andThen (PDFObject.WritePDF fl (PDFDocument.trailer fl objOffsets.length sizeFirst) _
        (WriteCounter.Write w) c) fun c =>
      write (WriteCounter.Write w) (PDFDocument.startxref xrefOffset) c
  (r.1, r.2.Writer)


/-! ## The sequence of writes of an object -/

/-- The slices `ps` handed to `Write` one after the other, up to the first
call that fails. -/
def writeAll {σ : Type} (w : Writer σ) : List (List Byte) → σ → Option Error × σ
  | [], s => (none, s)
  | p :: ps, s => andThen (write w p s) (writeAll w ps)

/-- The pieces that `hex.NewEncoder(w).Write(p)` hands to `w`. -/
def hexPieces : Nat → List Byte → List (List Byte)
  | 0, _ => []
  | fuel + 1, p =>
    if p.length > 0 then hexEncode (p.take 512) :: hexPieces fuel (p.drop 512) else []

/-- The slices that `PDFString.WritePDF` hands to `Write` when no call fails. -/
def PDFString.writes (d : GoString) : List (List Byte) :=
  [ascii "<"] ++ hexPieces d.length d ++ [ascii ">"]

mutual
/-- The slices that `WritePDF` hands to `Write`, in order, when no call fails
(`WritePDF_eq_writeAll`). -/
def PDFObject.writes {F : Type} (fl : FloatFormat F) : PDFObject F → List (List Byte)
  | .raw r => [r]
  | .boolean b => [if b then ascii "true" else ascii "false"]
  | .reference n => [formatInt n ++ ascii " " ++ formatInt 0 ++ ascii " R"]
  | .numeric n => [fl.formatFloat n]
  | .name n => [PDFName.escaped n]
  | .string d => PDFString.writes d
  | .array a => [ascii "[ "] ++ PDFArray.elemWrites fl a ++ [ascii " ]"]
  | .dictionary d => [ascii "<<\n"] ++ PDFDictionary.entryWrites fl d ++ [ascii ">>"]
  | .text R G B Font FontSize X Y Text =>
    [ascii "BT\n",
     fl.verbF R ++ ascii " " ++ fl.verbF G ++ ascii " " ++ fl.verbF B ++ ascii " rg\n",
     ascii "/" ++ Font ++ ascii " " ++ fl.verbF FontSize ++ ascii " Tf\n",
     fl.verbF2 X ++ ascii " " ++ fl.verbF2 Y ++ ascii " Td\n"]
      ++ PDFString.writes Text ++ [ascii " Tj\nET"]
  | .rule Width R G B X1 X2 Y =>
    [fl.verbF Width ++ ascii " w\n",
     fl.verbF R ++ ascii " " ++ fl.verbF G ++ ascii " " ++ fl.verbF B ++ ascii " RG\n",
     fl.verbF2 X1 ++ ascii " " ++ fl.verbF2 Y ++ ascii " m\n",
     fl.verbF2 X2 ++ ascii " " ++ fl.verbF2 Y ++ ascii " l s\n"]
  | .stream items =>
    [ascii "<< /Length " ++ formatNat 10 (PDFStream.itemWrites fl items 0).flatten.length
      ++ ascii " >>\nstream\n"]
      ++ (if (PDFStream.itemWrites fl items 0).flatten.length > 0
          then [(PDFStream.itemWrites fl items 0).flatten] else [])
      ++ [ascii "\nendstream\n"]
/-- The writes of the loop of `PDFArray.WritePDF`. -/
def PDFArray.elemWrites {F : Type} (fl : FloatFormat F) : List (PDFObject F) → List (List Byte)
  | [] => []
  | v :: rest => PDFObject.writes fl v ++ [[32]] ++ PDFArray.elemWrites fl rest
/-- The writes of the loop of `PDFDictionary.WritePDF`. -/
def PDFDictionary.entryWrites {F : Type} (fl : FloatFormat F) :
    List (GoString × PDFObject F) → List (List Byte)
  | [] => []
  | (k, v) :: rest =>
    [ascii "/" ++ k ++ ascii " "] ++ PDFObject.writes fl v ++ [[10]]
      ++ PDFDictionary.entryWrites fl rest
/-- The writes to the buffer of the loop of `PDFStream.WritePDF`, from index `i`. -/
def PDFStream.itemWrites {F : Type} (fl : FloatFormat F) :
    List (PDFObject F) → Nat → List (List Byte)
  | [], _ => []
  | obj :: rest, i =>
    (if i ≠ 0 then [[10]] else []) ++ PDFObject.writes fl obj
      ++ PDFStream.itemWrites fl rest (i + 1)
end

/-! ## The writes of a document, and what the claims speak of -/

/-- The writes of the loop over `d.Objects`, from index `i`, when no call fails. -/
def PDFDocument.objectWrites {F : Type} (fl : FloatFormat F) :
    List (PDFObject F) → Nat → List (List Byte)
  | [], _ => []
  | n :: rest, i =>
    [PDFDocument.objLine i] ++ PDFObject.writes fl n ++ [ascii "\nendobj\n\n"]
      ++ PDFDocument.objectWrites fl rest (i + 1)

/-- The value of `c.Count` at the head of each iteration of the loop over
`d.Objects`, from index `i` with `c.Count = count`, when no call fails. -/
def PDFDocument.offsetsFrom {F : Type} (fl : FloatFormat F) :
    List (PDFObject F) → Nat → Nat → List Nat
  | [], _, _ => []
  | n :: rest, i, count =>
    count :: PDFDocument.offsetsFrom fl rest (i + 1)
      (count + ([PDFDocument.objLine i] ++ PDFObject.writes fl n
        ++ [ascii "\nendobj\n\n"]).flatten.length)

/-- The writes of `PDFDocument.WritePDF` after the loop over the objects, for
the recorded offsets and the recorded table offset. -/
def PDFDocument.tailWrites {F : Type} (fl : FloatFormat F) (objOffsets : List Nat)
    (xrefOffset : Nat) (sizeFirst : Bool) : List (List Byte) :=
  [PDFDocument.xrefHead objOffsets.length] ++ objOffsets.map PDFDocument.xrefEntry
    ++ [ascii "\ntrailer\n"]
    ++ PDFObject.writes fl (PDFDocument.trailer fl objOffsets.length sizeFirst)
    ++ [PDFDocument.startxref xrefOffset]

/-- The writes of `PDFDocument.WritePDF` when no call fails
(`PDFDocument_WritePDF_eq_writeAll`). -/
def PDFDocument.writes {F : Type} (fl : FloatFormat F) (d : PDFDocument F)
    (sizeFirst : Bool) : List (List Byte) :=
  [ascii "%PDF-1.4\n\n"] ++ PDFDocument.objectWrites fl d.Objects 0
    ++ PDFDocument.tailWrites fl (PDFDocument.offsetsFrom fl d.Objects 0 10)
        (10 + (PDFDocument.objectWrites fl d.Objects 0).flatten.length) sizeFirst

/-- A sink that accepts every write: each call of `Write` takes the whole
slice and returns no error. `sent` reads the bytes taken so far off the state
of the sink. -/
def Accepts {σ : Type} (w : Writer σ) (sent : σ → GoString) : Prop :=
  ∀ s p, (w s p).1 = .ok ∧ sent (w s p).2 = sent s ++ p

/-- What an object serializes to: the content of a `bytes.Buffer`, empty
before, after `WritePDF` on it. -/
def PDFObject.bytes {F : Type} (fl : FloatFormat F) (o : PDFObject F) : GoString :=
  (o.WritePDF fl GoString bufferWriter []).2

/-- The objects of a document from index `i` on, each between its line
`"<i+1> 0 obj\n"` and `"\nendobj\n\n"`. -/
def PDFDocument.framed {F : Type} (fl : FloatFormat F) : List (PDFObject F) → Nat → GoString
  | [], _ => []
  | n :: rest, i =>
    PDFDocument.objLine i ++ n.bytes fl ++ ascii "\nendobj\n\n"
      ++ PDFDocument.framed fl rest (i + 1)

/-- The reference table for the recorded offsets: what the write of
`xrefHead` and the loop over `objOffsets` produce. -/
def PDFDocument.xrefTable (objOffsets : List Nat) : GoString :=
  PDFDocument.xrefHead objOffsets.length ++ (objOffsets.map PDFDocument.xrefEntry).flatten

/-- A writer that keeps, next to the state of `w`, the record of the calls
of `Write` made on it: each slice with what the call returned. -/
def recording {σ : Type} (w : Writer σ) : Writer (σ × List (List Byte × WriteResult)) :=
  fun s p => ((w s.1 p).1, ((w s.1 p).2, s.2 ++ [(p, (w s.1 p).1)]))

/-- The record of the calls of `Write` of a run that returned `err`: every
call succeeded when `err` is `nil`, and otherwise the last call of the record
failed, with `err` as its error, and every call before it succeeded. -/
def ShortCircuit (err : Option Error) (calls : List (List Byte × WriteResult)) : Prop :=
  match err with
  | none => ∀ c ∈ calls, c.2 = .ok
  | some e => ∃ before p n, calls = before ++ [(p, .fail n e)] ∧ ∀ c ∈ before, c.2 = .ok

/-- A `FloatFormat` for the examples: `F` is `Int`, each integer printed as Go
prints the `float64` of that value (`5`, `5.000000`, `5.00`). -/
def intFormat : FloatFormat Int where
  formatFloat := formatInt
  verbF := fun i => formatInt i ++ ascii ".000000"
  verbF2 := fun i => formatInt i ++ ascii ".00"
  ofInt := id

/-- A sink that fails its `k`-th call of `Write` (counted from 0) with the
error `"disk full"` after taking no byte, and accepts every other call. -/
def failingAt (k : Nat) : Writer (Nat × GoString) := fun s p =>
  if s.1 = k then (.fail 0 ⟨"disk full"⟩, (s.1 + 1, s.2)) else (.ok, (s.1 + 1, s.2 ++ p))

/-- The number that a reader takes from a string of decimal digits. -/
def readDecimal (digits : List Byte) : Nat :=
  digits.foldl (fun a b => 10 * a + (b.toNat - 48)) 0

/-- A document of four objects for the examples: a catalog, a content stream
with a text and a rule, an array of names, and an empty stream. -/
def sampleDocument : PDFDocument Int :=
  ⟨[.dictionary [(ascii "Type", .name (ascii "Catalog")), (ascii "Pages", .reference 3)],
    .stream [.text 0 0 0 (ascii "F1") 12 58 700 (ascii "Hi"), .rule 1 0 0 0 58 554 704],
    .array [.name (ascii "PDF"), .name (ascii "Text")],
    .stream []]⟩

/-- A string of `10 ^ 10` bytes. -/
def bigPayload : GoString := List.replicate 10000000000 97

/-! ## What the later claims speak of -/

/-- The value of a hexadecimal digit, as a reader of hex strings takes it. -/
def hexValue (c : Byte) : Nat :=
  if 48 ≤ c.toNat ∧ c.toNat ≤ 57 then c.toNat - 48
  else if 97 ≤ c.toNat ∧ c.toNat ≤ 102 then c.toNat - 87
  else if 65 ≤ c.toNat ∧ c.toNat ≤ 70 then c.toNat - 55
  else 0

/-- Hex decoding, as `hex.DecodeString` does it on an even number of digits:
one byte per pair of digits, the first digit of a pair the high nibble. -/
def hexDecode : List Byte → List Byte
  | hi :: lo :: rest => (hexValue hi * 16 + hexValue lo).toUInt8 :: hexDecode rest
  | _ => []

/-- The Go library prints the `float64` of the integer `k` as the decimal
integer `k`: `strconv.FormatFloat(float64(k), 'f', -1, 64)` is `"%d"` of `k`.
(For Go this holds whenever `|k| ≤ 2 ^ 53`.) -/
def FloatFormat.PrintsInt {F : Type} (fl : FloatFormat F) (k : Int) : Prop :=
  fl.formatFloat (fl.ofInt k) = formatInt k

/-- A sequence of calls of `Write`, one per slice and whatever each call
returns: what the calls returned, and the state of the writer afterwards. -/
def writeEach {σ : Type} (w : Writer σ) : List (List Byte) → σ → List WriteResult × σ
  | [], s => ([], s)
  | p :: ps, s => ((w s p).1 :: (writeEach w ps (w s p).2).1, (writeEach w ps (w s p).2).2)

/-- The sum of the byte counts `n` that the calls of `Write` reported, for the
results `rs` of the calls on the slices `ps`. -/
def reportedBytes : List WriteResult → List (List Byte) → Nat
  | r :: rs, p :: ps => r.n p + reportedBytes rs ps
  | _, _ => 0

/-! ## The obfuscating cipher (`obfscipher.go`) -/

/-- The struct `ObfsCipher`: the array `state [64]byte`. -/
structure ObfsCipher where
  state : Fin 64 → Byte

/-- `ObfsCipher.Pad`, with the function `sha512.Sum512` on 64-byte inputs as
the parameter `sum512`. The receiver `c` is passed by value, so the
assignments to `c.state` in the loop change the copy only: the call leaves
the caller's cipher as it was, and its effect is the new content of `p`. -/
def ObfsCipher.Pad (sum512 : (Fin 64 → Byte) → (Fin 64 → Byte)) :
    ObfsCipher → List Byte → List Byte
  | _, [] => []
  | c, b :: rest =>
    (b ^^^ (c.state 0 &&& 0x7F)) :: ObfsCipher.Pad sum512 { state := sum512 c.state } rest

/-- `ObfsCipher.PadStr`: the string is turned into its bytes, padded, and
turned back into a string. -/
def ObfsCipher.PadStr (sum512 : (Fin 64 → Byte) → (Fin 64 → Byte)) (c : ObfsCipher)
    (p : GoString) : GoString :=
  ObfsCipher.Pad sum512 c p

/-! # Theorems -/

/-! ## The fuel of the loops over a string is enough -/

theorem decodeRune_size_pos (b : Byte) (rest : GoString) : 1 ≤ (decodeRune (b :: rest)).2 := by
  simp only [decodeRune]
  split_ifs
  all_goals first
    | exact Nat.le_refl 1
    | (split <;> (try split_ifs) <;> simp)

theorem rangeFrom_fuel (fuel : Nat) :
    ∀ (fuel' i : Nat) (s : GoString), s.length ≤ fuel → s.length ≤ fuel' →
      rangeFrom fuel i s = rangeFrom fuel' i s := by
  induction fuel with
  | zero =>
    intro fuel' i s h _
    have hs : s = [] := List.eq_nil_of_length_eq_zero (by omega)
    subst hs
    cases fuel' <;> rfl
  | succ fuel ih =>
    intro fuel' i s h h'
    cases s with
    | nil => cases fuel' <;> rfl
    | cons b rest =>
      cases fuel' with
      | zero => simp at h'
      | succ fuel' =>
        have hpos := decodeRune_size_pos b rest
        simp only [rangeFrom]
        congr 1
        apply ih
        · simp only [List.length_drop, List.length_cons] at h ⊢; omega
        · simp only [List.length_drop, List.length_cons] at h' ⊢; omega

theorem hexPieces_fuel (fuel : Nat) :
    ∀ (fuel' : Nat) (p : List Byte), p.length ≤ fuel → p.length ≤ fuel' →
      hexPieces fuel p = hexPieces fuel' p := by
  induction fuel with
  | zero =>
    intro fuel' p h _
    have hp : p = [] := List.eq_nil_of_length_eq_zero (by omega)
    subst hp
    cases fuel' <;> rfl
  | succ fuel ih =>
    intro fuel' p h h'
    cases fuel' with
    | zero =>
      have hp : p = [] := List.eq_nil_of_length_eq_zero (by omega)
      subst hp
      rfl
    | succ fuel' =>
      simp only [hexPieces]
      split
      · congr 1
        apply ih
        · simp only [List.length_drop]; omega
        · simp only [List.length_drop]; omega
      · rfl

/-! ## The typesetter: lemmas -/

theorem scan_cons (s : TypeSetter) (avail : ℚ) (i r : Nat) (rest : List (Nat × Nat))
    (lb : Int) (w : ℚ) :
    s.scan avail ((i, r) :: rest) lb w =
      if w + (s.Metrics.RuneWidth r : ℚ) * s.Pt / 1000 ≥ avail
          ∧ (if r = 32 ∨ r = 45 then (i : Int) else lb) ≠ -1 then
        .wrapped (if r = 32 ∨ r = 45 then (i : Int) else lb)
      else s.scan avail rest (if r = 32 ∨ r = 45 then (i : Int) else lb)
        (w + (s.Metrics.RuneWidth r : ℚ) * s.Pt / 1000) := rfl

theorem scan_wrapped_nonneg (s : TypeSetter) (avail : ℚ) (l : List (Nat × Nat)) :
    ∀ (lb : Int) (w : ℚ) (lb' : Int), -1 ≤ lb → s.scan avail l lb w = .wrapped lb' → 0 ≤ lb' := by
  induction l with
  | nil => intro lb w lb' _ h; simp [TypeSetter.scan] at h
  | cons ir rest ih =>
    obtain ⟨i, r⟩ := ir
    intro lb w lb' hlb h
    rw [scan_cons] at h
    have hlb2 : -1 ≤ (if r = 32 ∨ r = 45 then (i : Int) else lb) := by
      split <;> omega
    generalize (if r = 32 ∨ r = 45 then (i : Int) else lb) = lb2 at h hlb2
    by_cases hc : w + (s.Metrics.RuneWidth r : ℚ) * s.Pt / 1000 ≥ avail ∧ lb2 ≠ -1
    · rw [if_pos hc] at h
      simp only [Scan.wrapped.injEq] at h
      have := hc.2
      omega
    · rw [if_neg hc] at h
      exact ih _ _ _ hlb2 h

theorem sliceFrom_some_le (t : GoString) (start : Int) (rest : GoString)
    (h : sliceFrom t start = some rest) : 0 ≤ start ∧ start ≤ t.length := by
  unfold sliceFrom slice at h
  split at h
  · rename_i hc; exact ⟨hc.1, hc.2.1⟩
  · simp at h

theorem outer_ne_outOfFuel (s : TypeSetter) (Text : GoString) :
    ∀ (fuel : Nat) (y : ℚ) (start lb : Int) (result : List OutLine),
      -1 ≤ lb → 0 < fuel → (Text.length : Int) + 1 - start < fuel →
      s.outer Text fuel y start lb result ≠ .outOfFuel := by
  intro fuel
  induction fuel with
  | zero => intro y start lb result _ h0; omega
  | succ fuel ih =>
    intro y start lb result hlb _ hf
    simp only [TypeSetter.outer]
    split
    · simp
    · rename_i rest hrest
      have hst := sliceFrom_some_le _ _ _ hrest
      split
      · rename_i lb' hscan
        have hlb' := scan_wrapped_nonneg _ _ _ _ _ _ hlb hscan
        split
        · simp
        · apply ih
          · omega
          · push_cast at hf; omega
          · push_cast at hf ⊢; omega
      · simp

/-- The outer loop of `Set` always ends within the iterations the model gives it. -/
theorem Set_ne_outOfFuel (s : TypeSetter) (Text : GoString) : s.Set Text ≠ .outOfFuel := by
  unfold TypeSetter.Set
  apply outer_ne_outOfFuel
  · omega
  · omega
  · push_cast; omega

theorem outer_returned_last (s : TypeSetter) (Text : GoString) :
    ∀ (fuel : Nat) (y : ℚ) (start lb : Int) (result lines : List OutLine) (y' : ℚ),
      s.outer Text fuel y start lb result = .returned lines y' →
      ∃ l, lines.getLast? = some l ∧ l.Y = y' := by
  intro fuel
  induction fuel with
  | zero => intro y start lb result lines y' h; simp [TypeSetter.outer] at h
  | succ fuel ih =>
    intro y start lb result lines y' h
    simp only [TypeSetter.outer] at h
    split at h
    · simp at h
    · split at h
      · split at h
        · simp at h
        · exact ih _ _ _ _ _ _ h
      · simp only [SetResult.returned.injEq] at h
        obtain ⟨h1, h2⟩ := h
        subst h1 h2
        simp

/-! ## The typesetter: the claims -/

/-- C2 (code defect): with every advance 1000 at 1 pt and a span of width 5,
`Set` on `"aaaaaaaa bbbbb cc dd"` returns the line `"bbbbb cc"`, which contains a
space and whose width, as `FontMetrics.Width` computes it, is 8: wider than the
span. The break offset 8 of the first line is still in `lastBreak` when the
second line reaches the span width. -/
theorem Set_line_with_space_wider_than_span :
    TypeSetter.Set ⟨⟨fun _ => 1000⟩, 1, 12, 0, 100, 5⟩ (ascii "aaaaaaaa bbbbb cc dd")
        = .returned [⟨0, 88, 1, ascii "aaaaaaaa"⟩, ⟨0, 76, 1, ascii "bbbbb cc"⟩,
            ⟨0, 64, 1, ascii "dd"⟩] 64
      ∧ FontMetrics.Width ⟨fun _ => 1000⟩ 1 (ascii "bbbbb cc") = 8
      ∧ (32 : Byte) ∈ ascii "bbbbb cc" ∧ (8 : ℚ) > 5 - 0 := by
  decide!

/-- C3 (code defect): with every advance 1000 at 1 pt and a span of width 3,
`Set` on `"ab cdefgh"` returns the lines `"ab"`, `"cd"`, `"fg"` and `""`: the
letters `e` and `h` of the source are in no line. The break offset 2 of the
first line is still in `lastBreak` on the later lines. -/
theorem Set_drops_letters :
    TypeSetter.Set ⟨⟨fun _ => 1000⟩, 1, 12, 0, 100, 3⟩ (ascii "ab cdefgh")
      = .returned [⟨0, 88, 1, ascii "ab"⟩, ⟨0, 76, 1, ascii "cd"⟩, ⟨0, 64, 1, ascii "fg"⟩,
          ⟨0, 52, 1, ascii ""⟩] 52 := by
  decide!

/-- C4 (code defect): with every advance 1000 at 1 pt and a span of width 1,
`Set` on `"a b"` panics: after the lines `"a"` and `"b"` the variable `start` is 4
and the slice `Text[4:]` of the 3-byte string is out of range. -/
theorem Set_panics_on_a_b :
    TypeSetter.Set ⟨⟨fun _ => 1000⟩, 1, 12, 0, 100, 1⟩ (ascii "a b") = .panicked := by
  decide!

/-- C5, as the code has it: whenever `Set` returns, it has returned at least
one line, and the Y it returns is the Y of the last line. -/
theorem Set_returns_Y_of_last_line (s : TypeSetter) (Text : GoString)
    (lines : List OutLine) (y : ℚ) (h : s.Set Text = .returned lines y) :
    ∃ l, lines.getLast? = some l ∧ y = l.Y := by
  obtain ⟨l, h1, h2⟩ := outer_returned_last s Text _ _ _ _ _ _ _ h
  exact ⟨l, h1, h2.symm⟩

theorem Set_returns_Y_of_last_line_witness :
    TypeSetter.Set ⟨⟨fun _ => 500⟩, 12, 18, 58, 640, 554⟩ (ascii "Go")
        = .returned [⟨58, 622, 12, ascii "Go"⟩] 622
      ∧ ∃ l, [(⟨58, 622, 12, ascii "Go"⟩ : OutLine)].getLast? = some l ∧ (622 : ℚ) = l.Y :=
  ⟨by decide!, Set_returns_Y_of_last_line ⟨⟨fun _ => 500⟩, 12, 18, 58, 640, 554⟩ (ascii "Go")
    [⟨58, 622, 12, ascii "Go"⟩] 622 (by decide!)⟩

/-- C5 as stated fails: at 12 pt with line height 18 from `Y1 = 640`, `Set` on
`"Go"` returns one line at Y 622 and the Y 622, not 622 - 18. -/
theorem Set_Y_not_below_last_line :
    TypeSetter.Set ⟨⟨fun _ => 500⟩, 12, 18, 58, 640, 554⟩ (ascii "Go")
        = .returned [⟨58, 622, 12, ascii "Go"⟩] 622
      ∧ (622 : ℚ) ≠ 622 - 18 := by
  decide!

/-! ## Writers: lemmas -/

theorem andThen_none {σ : Type} (s : σ) (f : σ → Option Error × σ) :
    andThen (none, s) f = f s := rfl

theorem andThen_some {σ : Type} (e : Error) (s : σ) (f : σ → Option Error × σ) :
    andThen (some e, s) f = (some e, s) := rfl

theorem andThen_assoc {σ : Type} (r : Option Error × σ) (f g : σ → Option Error × σ) :
    andThen (andThen r f) g = andThen r (fun s => andThen (f s) g) := by
  obtain ⟨e, s⟩ := r
  cases e <;> rfl

theorem andThen_pure {σ : Type} (r : Option Error × σ) :
    andThen r (fun s => (none, s)) = r := by
  obtain ⟨e, s⟩ := r
  cases e <;> rfl

theorem writeAll_nil {σ : Type} (w : Writer σ) (s : σ) : writeAll w [] s = (none, s) := rfl

theorem writeAll_cons {σ : Type} (w : Writer σ) (p : List Byte) (ps : List (List Byte)) (s : σ) :
    writeAll w (p :: ps) s = andThen (write w p s) (writeAll w ps) := rfl

theorem writeAll_single {σ : Type} (w : Writer σ) (p : List Byte) (s : σ) :
    writeAll w [p] s = write w p s := by
  rw [writeAll_cons]
  exact andThen_pure _

theorem writeAll_append {σ : Type} (w : Writer σ) (ps qs : List (List Byte)) (s : σ) :
    writeAll w (ps ++ qs) s = andThen (writeAll w ps s) (writeAll w qs) := by
  induction ps generalizing s with
  | nil => rfl
  | cons p ps ih =>
    rw [List.cons_append, writeAll_cons, writeAll_cons, andThen_assoc]
    congr 1
    funext s'
    exact ih s'

theorem hexEncoderWrite_eq {σ : Type} (w : Writer σ) (fuel : Nat) (p : List Byte) (s : σ) :
    hexEncoderWrite w fuel p s = writeAll w (hexPieces fuel p) s := by
  induction fuel generalizing p s with
  | zero => rfl
  | succ fuel ih =>
    simp only [hexEncoderWrite, hexPieces]
    split
    · rw [writeAll_cons]
      congr 1
      funext s'
      exact ih _ s'
    · rfl

theorem write_eq_writeAll {σ : Type} (w : Writer σ) (p : List Byte) (s : σ) :
    write w p s = writeAll w [p] s := (writeAll_single w p s).symm

theorem andThen_writeAll {σ : Type} (w : Writer σ) (ps qs : List (List Byte)) (s : σ) :
    andThen (writeAll w ps s) (fun s => writeAll w qs s) = writeAll w (ps ++ qs) s :=
  (writeAll_append w ps qs s).symm

theorem PDFString_WritePDF_eq {σ : Type} (d : GoString) (w : Writer σ) (s : σ) :
    PDFString.WritePDF d w s = writeAll w (PDFString.writes d) s := by
  simp only [PDFString.WritePDF, PDFString.writes, hexEncoderWrite_eq, write_eq_writeAll,
    andThen_writeAll, List.append_assoc]

theorem writeAll_buffer (ps : List (List Byte)) (b : GoString) :
    writeAll bufferWriter ps b = (none, b ++ ps.flatten) := by
  induction ps generalizing b with
  | nil => simp [writeAll]
  | cons p ps ih =>
    rw [writeAll_cons]
    simp only [write, bufferWriter, WriteResult.err, andThen_none]
    rw [ih]
    simp

mutual
theorem WritePDF_eq_writeAll {F : Type} (fl : FloatFormat F) :
    ∀ (o : PDFObject F) (σ : Type) (w : Writer σ) (s : σ),
      o.WritePDF fl σ w s = writeAll w (o.writes fl) s
  | .raw r, σ, w, s => by
    simp only [PDFObject.WritePDF, PDFObject.writes, write_eq_writeAll]
  | .boolean b, σ, w, s => by
    cases b <;> simp [PDFObject.WritePDF, PDFObject.writes, write_eq_writeAll]
  | .reference n, σ, w, s => by
    simp only [PDFObject.WritePDF, PDFObject.writes, write_eq_writeAll]
  | .numeric n, σ, w, s => by
    simp only [PDFObject.WritePDF, PDFObject.writes, write_eq_writeAll]
  | .name n, σ, w, s => by
    simp only [PDFObject.WritePDF, PDFObject.writes, write_eq_writeAll]
  | .string d, σ, w, s => by
    simp only [PDFObject.WritePDF, PDFObject.writes, PDFString_WritePDF_eq]
  | .array a, σ, w, s => by
    simp only [PDFObject.WritePDF, PDFObject.writes, write_eq_writeAll,
      writeElems_eq_writeAll fl a, andThen_writeAll, List.append_assoc]
  | .dictionary d, σ, w, s => by
    simp only [PDFObject.WritePDF, PDFObject.writes, write_eq_writeAll,
      writeEntries_eq_writeAll fl d, andThen_writeAll, List.append_assoc]
  | .text R G B Font FontSize X Y Text, σ, w, s => by
    simp only [PDFObject.WritePDF, PDFObject.writes, write_eq_writeAll,
      PDFString_WritePDF_eq, andThen_writeAll, List.append_assoc, List.cons_append,
      List.nil_append]
  | .rule Width R G B X1 X2 Y, σ, w, s => by
    simp only [PDFObject.WritePDF, PDFObject.writes, write_eq_writeAll,
      andThen_writeAll, List.append_assoc, List.cons_append, List.nil_append]
  | .stream items, σ, w, s => by
    simp only [PDFObject.WritePDF, PDFObject.writes]
    rw [writeItems_eq_writeAll fl items 0 GoString bufferWriter [], writeAll_buffer]
    simp only [List.nil_append, bufferWriteTo, write_eq_writeAll]
    split
    · simp only [andThen_writeAll, List.append_assoc]
    · simp only [← writeAll_nil w, andThen_writeAll, List.append_nil, List.nil_append]
theorem writeElems_eq_writeAll {F : Type} (fl : FloatFormat F) :
    ∀ (a : List (PDFObject F)) (σ : Type) (w : Writer σ) (s : σ),
      PDFArray.writeElems fl a σ w s = writeAll w (PDFArray.elemWrites fl a) s
  | [], σ, w, s => rfl
  | v :: rest, σ, w, s => by
    simp only [PDFArray.writeElems, PDFArray.elemWrites, write_eq_writeAll,
      WritePDF_eq_writeAll fl v, writeElems_eq_writeAll fl rest, andThen_writeAll,
      List.append_assoc]
theorem writeEntries_eq_writeAll {F : Type} (fl : FloatFormat F) :
    ∀ (d : List (GoString × PDFObject F)) (σ : Type) (w : Writer σ) (s : σ),
      PDFDictionary.writeEntries fl d σ w s = writeAll w (PDFDictionary.entryWrites fl d) s
  | [], σ, w, s => rfl
  | (k, v) :: rest, σ, w, s => by
    simp only [PDFDictionary.writeEntries, PDFDictionary.entryWrites, write_eq_writeAll,
      WritePDF_eq_writeAll fl v, writeEntries_eq_writeAll fl rest, andThen_writeAll,
      List.append_assoc]
theorem writeItems_eq_writeAll {F : Type} (fl : FloatFormat F) :
    ∀ (items : List (PDFObject F)) (i : Nat) (σ : Type) (w : Writer σ) (s : σ),
      PDFStream.writeItems fl items i σ w s = writeAll w (PDFStream.itemWrites fl items i) s
  | [], i, σ, w, s => rfl
  | obj :: rest, i, σ, w, s => by
    simp only [PDFStream.writeItems, PDFStream.itemWrites, write_eq_writeAll,
      WritePDF_eq_writeAll fl obj, writeItems_eq_writeAll fl rest]
    split
    · simp only [andThen_writeAll, List.append_assoc]
    · simp only [← writeAll_nil w, andThen_writeAll, List.append_assoc]
end

/-! ## The counting writer and the document: lemmas -/

theorem write_counter {σ : Type} (w : Writer σ) (p : List Byte) (c : WriteCounter σ) :
    write (WriteCounter.Write w) p c =
      ((write w p c.Writer).1,
        { Writer := (write w p c.Writer).2, Count := c.Count + (w c.Writer p).1.n p }) := rfl

theorem writeAll_counter {σ : Type} (w : Writer σ) (ps : List (List Byte)) :
    ∀ c : WriteCounter σ,
      (writeAll (WriteCounter.Write w) ps c).1 = (writeAll w ps c.Writer).1
      ∧ (writeAll (WriteCounter.Write w) ps c).2.Writer = (writeAll w ps c.Writer).2
      ∧ ((writeAll w ps c.Writer).1 = none →
          (writeAll (WriteCounter.Write w) ps c).2.Count = c.Count + ps.flatten.length) := by
  induction ps with
  | nil => intro c; simp [writeAll]
  | cons p ps ih =>
    intro c
    rw [writeAll_cons, writeAll_cons, write_counter]
    cases hr : (w c.Writer p).1 with
    | ok =>
      have h1 : write w p c.Writer = (none, (w c.Writer p).2) := by
        simp [write, hr, WriteResult.err]
      rw [h1]
      simp only [andThen_none, WriteResult.n]
      obtain ⟨i1, i2, i3⟩ := ih { Writer := (w c.Writer p).2, Count := c.Count + p.length }
      refine ⟨i1, i2, fun h => ?_⟩
      rw [i3 h]
      simp only [List.flatten_cons, List.length_append]
      omega
    | fail n e =>
      have h1 : write w p c.Writer = (some e, (w c.Writer p).2) := by
        simp [write, hr, WriteResult.err]
      rw [h1]
      simp [andThen_some]

theorem writeOffsets_eq_writeAll {σ : Type} (w : Writer σ) (offs : List Nat) (s : σ) :
    PDFDocument.writeOffsets w offs s = writeAll w (offs.map PDFDocument.xrefEntry) s := by
  induction offs generalizing s with
  | nil => rfl
  | cons o offs ih =>
    simp only [PDFDocument.writeOffsets, List.map_cons, writeAll_cons]
    congr 1
    funext s'
    exact ih s'

theorem writeObjects_eq {F σ : Type} (fl : FloatFormat F) (w : Writer σ)
    (objs : List (PDFObject F)) :
    ∀ (i : Nat) (offs : List Nat) (c : WriteCounter σ),
      (PDFDocument.writeObjects fl w objs i offs c).2
          = writeAll (WriteCounter.Write w) (PDFDocument.objectWrites fl objs i) c
      ∧ ((writeAll (WriteCounter.Write w) (PDFDocument.objectWrites fl objs i) c).1 = none →
          (PDFDocument.writeObjects fl w objs i offs c).1
            = offs ++ PDFDocument.offsetsFrom fl objs i c.Count) := by
  induction objs with
  | nil => intro i offs c; simp [PDFDocument.writeObjects, PDFDocument.objectWrites,
      PDFDocument.offsetsFrom, writeAll]
  | cons n rest ih =>
    intro i offs c
    have hstep : (andThen (write (WriteCounter.Write w) (PDFDocument.objLine i) c) fun c =>
        andThen (PDFObject.WritePDF fl n _ (WriteCounter.Write w) c) fun c =>
        write (WriteCounter.Write w) (ascii "\nendobj\n\n") c)
        = writeAll (WriteCounter.Write w)
            ([PDFDocument.objLine i] ++ PDFObject.writes fl n ++ [ascii "\nendobj\n\n"]) c := by
      simp only [WritePDF_eq_writeAll, write_eq_writeAll, andThen_writeAll, List.append_assoc]
    have hall : writeAll (WriteCounter.Write w) (PDFDocument.objectWrites fl (n :: rest) i) c
        = andThen (writeAll (WriteCounter.Write w)
            ([PDFDocument.objLine i] ++ PDFObject.writes fl n ++ [ascii "\nendobj\n\n"]) c)
          (writeAll (WriteCounter.Write w) (PDFDocument.objectWrites fl rest (i + 1))) := by
      rw [← writeAll_append]; rfl
    rw [hall]
    simp only [PDFDocument.writeObjects]
    rw [hstep]
    obtain ⟨c1, c2, c3⟩ := writeAll_counter w
      ([PDFDocument.objLine i] ++ PDFObject.writes fl n ++ [ascii "\nendobj\n\n"]) c
    generalize hB : writeAll (WriteCounter.Write w)
      ([PDFDocument.objLine i] ++ PDFObject.writes fl n ++ [ascii "\nendobj\n\n"]) c = B
      at c1 c2 c3
    obtain ⟨e, c'⟩ := B
    cases e with
    | some e => simp [andThen_some]
    | none =>
      simp only [andThen_none]
      obtain ⟨i1, i2⟩ := ih (i + 1) (offs ++ [c.Count]) c'
      refine ⟨i1, fun h => ?_⟩
      rw [i2 h]
      have hc : c'.Count = c.Count + ([PDFDocument.objLine i] ++ PDFObject.writes fl n
          ++ [ascii "\nendobj\n\n"]).flatten.length := c3 (by rw [← c1])
      simp only [PDFDocument.offsetsFrom, hc, List.append_assoc, List.singleton_append]

theorem header_length : (ascii "%PDF-1.4\n\n").length = 10 := by decide

theorem tail_eq_writeAll {F σ : Type} (fl : FloatFormat F) (w : Writer σ)
    (objOffsets : List Nat) (xrefOffset : Nat) (sizeFirst : Bool) (c : WriteCounter σ) :
    (andThen (write (WriteCounter.Write w) (PDFDocument.xrefHead objOffsets.length) c) fun c =>
      andThen (PDFDocument.writeOffsets (WriteCounter.Write w) objOffsets c) fun c =>
      andThen (write (WriteCounter.Write w) (ascii "\ntrailer\n") c) fun c =>
      andThen (PDFObject.WritePDF fl (PDFDocument.trailer fl objOffsets.length sizeFirst) _
        (WriteCounter.Write w) c) fun c =>
      write (WriteCounter.Write w) (PDFDocument.startxref xrefOffset) c)
      = writeAll (WriteCounter.Write w)
          (PDFDocument.tailWrites fl objOffsets xrefOffset sizeFirst) c := by
  simp only [PDFDocument.tailWrites, WritePDF_eq_writeAll, writeOffsets_eq_writeAll,
    write_eq_writeAll, andThen_writeAll, List.append_assoc]

theorem afterHeader_eq {F σ : Type} (fl : FloatFormat F) (w : Writer σ)
    (objs : List (PDFObject F)) (sizeFirst : Bool) (c : WriteCounter σ) :
    (match PDFDocument.writeObjects fl w objs 0 [] c with
      | (_, (some e, c)) => (some e, c)
      | (objOffsets, (none, c)) =>
        andThen (write (WriteCounter.Write w) (PDFDocument.xrefHead objOffsets.length) c) fun c' =>
        andThen (PDFDocument.writeOffsets (WriteCounter.Write w) objOffsets c') fun c' =>
        andThen (write (WriteCounter.Write w) (ascii "\ntrailer\n") c') fun c' =>
        andThen (PDFObject.WritePDF fl (PDFDocument.trailer fl objOffsets.length sizeFirst) _
          (WriteCounter.Write w) c') fun c' =>
        write (WriteCounter.Write w) (PDFDocument.startxref c.Count) c')
      = writeAll (WriteCounter.Write w)
          (PDFDocument.objectWrites fl objs 0
            ++ PDFDocument.tailWrites fl (PDFDocument.offsetsFrom fl objs 0 c.Count)
                (c.Count + (PDFDocument.objectWrites fl objs 0).flatten.length) sizeFirst) c := by
  obtain ⟨h1, h2⟩ := writeObjects_eq fl w objs 0 [] c
  obtain ⟨c1, c2, c3⟩ := writeAll_counter w (PDFDocument.objectWrites fl objs 0) c
  rw [writeAll_append]
  generalize hR : PDFDocument.writeObjects fl w objs 0 [] c = R at h1 h2
  obtain ⟨offs, e, c'⟩ := R
  simp only at h1 h2
  rw [← h1] at h2 c1 c3 ⊢
  cases e with
  | some e => simp [andThen_some]
  | none =>
    simp only [andThen_none]
    rw [tail_eq_writeAll]
    have ho : offs = PDFDocument.offsetsFrom fl objs 0 c.Count := by
      simpa using h2 rfl
    have hc : c'.Count = c.Count + (PDFDocument.objectWrites fl objs 0).flatten.length :=
      c3 (by rw [← c1])
    rw [ho, hc]

/-- `PDFDocument.WritePDF` hands the slices `d.writes` to the sink, in order,
up to the first call that fails, and returns the error of that call. -/
theorem PDFDocument_WritePDF_eq_writeAll {F σ : Type} (fl : FloatFormat F)
    (d : PDFDocument F) (sizeFirst : Bool) (w : Writer σ) (s : σ) :
    d.WritePDF fl sizeFirst w s = writeAll w (d.writes fl sizeFirst) s := by
  unfold PDFDocument.WritePDF
  simp only [afterHeader_eq]
  have key : (andThen (write (WriteCounter.Write w) (ascii "%PDF-1.4\n\n")
        { Writer := s, Count := 0 }) fun c =>
      writeAll (WriteCounter.Write w)
        (PDFDocument.objectWrites fl d.Objects 0
          ++ PDFDocument.tailWrites fl (PDFDocument.offsetsFrom fl d.Objects 0 c.Count)
              (c.Count + (PDFDocument.objectWrites fl d.Objects 0).flatten.length) sizeFirst) c)
      = writeAll (WriteCounter.Write w) (d.writes fl sizeFirst) { Writer := s, Count := 0 } := by
    unfold PDFDocument.writes
    rw [List.append_assoc, List.singleton_append, writeAll_cons, write_counter]
    cases hr : (w s (ascii "%PDF-1.4\n\n")).1 with
    | ok =>
      have h1 : write w (ascii "%PDF-1.4\n\n") s = (none, (w s (ascii "%PDF-1.4\n\n")).2) := by
        simp [write, hr, WriteResult.err]
      simp only [h1, andThen_none, WriteResult.n, header_length, Nat.zero_add]
    | fail n e =>
      have h1 : write w (ascii "%PDF-1.4\n\n") s = (some e, (w s (ascii "%PDF-1.4\n\n")).2) := by
        simp [write, hr, WriteResult.err]
      simp only [h1, andThen_some]
  rw [key]
  obtain ⟨c1, c2, _⟩ := writeAll_counter w (d.writes fl sizeFirst) { Writer := s, Count := 0 }
  exact Prod.ext c1 c2

/-! ## A sink that accepts every write: lemmas -/

theorem writeAll_accepts {σ : Type} (w : Writer σ) (sent : σ → GoString) (hw : Accepts w sent)
    (ps : List (List Byte)) :
    ∀ s : σ, (writeAll w ps s).1 = none ∧ sent (writeAll w ps s).2 = sent s ++ ps.flatten := by
  induction ps with
  | nil => intro s; simp [writeAll]
  | cons p ps ih =>
    intro s
    obtain ⟨h1, h2⟩ := hw s p
    have hwr : write w p s = (none, (w s p).2) := by simp [write, h1, WriteResult.err]
    rw [writeAll_cons, hwr, andThen_none]
    obtain ⟨i1, i2⟩ := ih (w s p).2
    refine ⟨i1, ?_⟩
    rw [i2, h2]
    simp

theorem bufferWriter_accepts : Accepts bufferWriter id := by
  intro s p
  exact ⟨rfl, rfl⟩

theorem bytes_eq_flatten {F : Type} (fl : FloatFormat F) (o : PDFObject F) :
    o.bytes fl = (o.writes fl).flatten := by
  unfold PDFObject.bytes
  rw [WritePDF_eq_writeAll, writeAll_buffer]
  simp

theorem framed_eq_flatten {F : Type} (fl : FloatFormat F) (objs : List (PDFObject F)) :
    ∀ i, PDFDocument.framed fl objs i = (PDFDocument.objectWrites fl objs i).flatten := by
  induction objs with
  | nil => intro i; rfl
  | cons n rest ih =>
    intro i
    simp only [PDFDocument.framed, PDFDocument.objectWrites, ih, bytes_eq_flatten,
      List.flatten_append, List.flatten_cons, List.flatten_nil, List.append_nil,
      List.append_assoc]

theorem tailWrites_flatten {F : Type} (fl : FloatFormat F) (offs : List Nat) (x : Nat)
    (sizeFirst : Bool) :
    (PDFDocument.tailWrites fl offs x sizeFirst).flatten
      = PDFDocument.xrefTable offs
        ++ (ascii "\ntrailer\n" ++ (PDFDocument.trailer fl offs.length sizeFirst).bytes fl
          ++ PDFDocument.startxref x) := by
  simp only [PDFDocument.tailWrites, PDFDocument.xrefTable, bytes_eq_flatten,
    List.flatten_append, List.flatten_cons, List.flatten_nil, List.append_nil,
    List.append_assoc]

theorem offsetsFrom_length {F : Type} (fl : FloatFormat F) (objs : List (PDFObject F)) :
    ∀ i count, (PDFDocument.offsetsFrom fl objs i count).length = objs.length := by
  induction objs with
  | nil => intro i count; rfl
  | cons n rest ih => intro i count; simp [PDFDocument.offsetsFrom, ih]

theorem offsetsFrom_points {F : Type} (fl : FloatFormat F) (objs : List (PDFObject F)) :
    ∀ (i : Nat) (pre post : GoString) (j o : Nat),
      (PDFDocument.offsetsFrom fl objs i pre.length)[j]? = some o →
      PDFDocument.objLine (i + j) <+: (pre ++ PDFDocument.framed fl objs i ++ post).drop o := by
  induction objs with
  | nil => intro i pre post j o h; simp [PDFDocument.offsetsFrom] at h
  | cons n rest ih =>
    intro i pre post j o h
    cases j with
    | zero =>
      simp only [PDFDocument.offsetsFrom, List.getElem?_cons_zero, Option.some.injEq] at h
      subst h
      rw [List.append_assoc, List.drop_left]
      simp only [PDFDocument.framed, List.append_assoc, Nat.add_zero]
      exact List.prefix_append _ _
    | succ j =>
      simp only [PDFDocument.offsetsFrom, List.getElem?_cons_succ] at h
      have hlen : pre.length + ([PDFDocument.objLine i] ++ PDFObject.writes fl n
            ++ [ascii "\nendobj\n\n"]).flatten.length
          = (pre ++ (PDFDocument.objLine i ++ n.bytes fl ++ ascii "\nendobj\n\n")).length := by
        simp [bytes_eq_flatten]
      rw [hlen] at h
      have := ih (i + 1) _ post j o h
      have hi : i + 1 + j = i + (j + 1) := by omega
      rw [hi] at this
      simpa [PDFDocument.framed, List.append_assoc] using this

/-- What a sink that accepts every write has taken after `PDFDocument.WritePDF`. -/
theorem PDFDocument_output {F σ : Type} (fl : FloatFormat F) (d : PDFDocument F)
    (sizeFirst : Bool) (w : Writer σ) (sent : σ → GoString) (hw : Accepts w sent) (s : σ) :
    (d.WritePDF fl sizeFirst w s).1 = none
    ∧ sent (d.WritePDF fl sizeFirst w s).2 = sent s ++
        (ascii "%PDF-1.4\n\n" ++ PDFDocument.framed fl d.Objects 0
          ++ PDFDocument.xrefTable (PDFDocument.offsetsFrom fl d.Objects 0 10)
          ++ (ascii "\ntrailer\n"
              ++ (PDFDocument.trailer fl d.Objects.length sizeFirst).bytes fl
              ++ PDFDocument.startxref
                  (ascii "%PDF-1.4\n\n" ++ PDFDocument.framed fl d.Objects 0).length)) := by
  rw [PDFDocument_WritePDF_eq_writeAll]
  obtain ⟨h1, h2⟩ := writeAll_accepts w sent hw (d.writes fl sizeFirst) s
  refine ⟨h1, ?_⟩
  rw [h2]
  congr 1
  simp only [PDFDocument.writes, List.flatten_append, List.flatten_cons, List.flatten_nil,
    List.append_nil, tailWrites_flatten, offsetsFrom_length, framed_eq_flatten,
    List.length_append, header_length, List.append_assoc]

/-! ## Decimal formatting: lemmas -/

theorem digitByte_toNat (d : Nat) (h : d < 10) : (digitByte d).toNat - 48 = d := by
  interval_cases d <;> rfl

theorem foldl_formatDigits (fuel : Nat) :
    ∀ (n : Nat) (acc : List Byte), n < fuel →
      (formatDigits 10 fuel n acc).foldl (fun a b => 10 * a + (b.toNat - 48)) 0
        = acc.foldl (fun a b => 10 * a + (b.toNat - 48)) n := by
  induction fuel with
  | zero => intro n acc h; omega
  | succ fuel ih =>
    intro n acc h
    simp only [formatDigits]
    split
    · rename_i hn
      simp [List.foldl_cons, digitByte_toNat n hn]
    · rename_i hn
      rw [ih (n / 10) _ (by omega)]
      simp only [List.foldl_cons]
      rw [digitByte_toNat (n % 10) (Nat.mod_lt _ (by omega))]
      congr 1
      omega

theorem readDecimal_formatNat (n : Nat) : readDecimal (formatNat 10 n) = n := by
  unfold readDecimal formatNat
  rw [foldl_formatDigits (n + 1) n [] (by omega)]
  rfl

theorem readDecimal_formatPad10 (n : Nat) : readDecimal (formatPad10 n) = n := by
  have hz : ∀ k (rest : List Byte),
      (List.replicate k (48 : Byte) ++ rest).foldl (fun a b => 10 * a + (b.toNat - 48)) 0
        = rest.foldl (fun a b => 10 * a + (b.toNat - 48)) 0 := by
    intro k rest
    induction k with
    | zero => rfl
    | succ k ih => rw [List.replicate_succ, List.cons_append, List.foldl_cons]; exact ih
  unfold readDecimal formatPad10
  rw [hz]
  exact readDecimal_formatNat n

theorem formatDigits_length_le (fuel : Nat) :
    ∀ (n k : Nat) (acc : List Byte), n < fuel → 1 ≤ k → n < 10 ^ k →
      (formatDigits 10 fuel n acc).length ≤ k + acc.length := by
  induction fuel with
  | zero => intro n k acc h; omega
  | succ fuel ih =>
    intro n k acc h hk hn
    simp only [formatDigits]
    split
    · simp only [List.length_cons]; omega
    · rename_i h10
      obtain ⟨k', rfl⟩ : ∃ k', k = k' + 1 := ⟨k - 1, by omega⟩
      have hk' : 1 ≤ k' := by
        rcases Nat.eq_zero_or_pos k' with h0 | h0
        · subst h0; simp at hn; omega
        · exact h0
      have hdiv : n / 10 < 10 ^ k' := by
        rw [Nat.div_lt_iff_lt_mul (by omega)]
        rw [pow_succ] at hn
        exact hn
      have := ih (n / 10) k' (digitByte (n % 10) :: acc) (by omega) hk' hdiv
      simp only [List.length_cons] at this
      omega

theorem formatPad10_length (n : Nat) :
    10 ≤ (formatPad10 n).length ∧ (n < 10 ^ 10 → (formatPad10 n).length = 10) := by
  unfold formatPad10
  simp only [List.length_append, List.length_replicate]
  refine ⟨by omega, fun h => ?_⟩
  have := formatDigits_length_le (n + 1) n 10 [] (by omega) (by omega) h
  simp only [List.length_nil] at this
  unfold formatNat
  omega

/-! ## The stream and the record of calls: lemmas -/

theorem intercalate_cons {α : Type} (sep x : List α) (xs : List (List α)) :
    List.intercalate sep (x :: xs) = x ++ (xs.map fun y => sep ++ y).flatten := by
  induction xs generalizing x with
  | nil => simp [List.intercalate]
  | cons y ys ih =>
    have := ih y
    simp only [List.intercalate, List.intersperse, List.flatten_cons, List.map_cons,
      List.append_assoc] at this ⊢
    rw [this]

theorem itemWrites_flatten_succ {F : Type} (fl : FloatFormat F) (items : List (PDFObject F)) :
    ∀ i, i ≠ 0 → (PDFStream.itemWrites fl items i).flatten
      = (items.map fun o => [10] ++ o.bytes fl).flatten := by
  induction items with
  | nil => intro i _; rfl
  | cons o rest ih =>
    intro i hi
    simp only [PDFStream.itemWrites, if_pos hi, List.flatten_append, List.flatten_cons,
      List.flatten_nil, List.append_nil, ih (i + 1) (by omega), bytes_eq_flatten,
      List.map_cons, List.append_assoc]

theorem itemWrites_flatten {F : Type} (fl : FloatFormat F) (items : List (PDFObject F)) :
    (PDFStream.itemWrites fl items 0).flatten
      = List.intercalate [10] (items.map (PDFObject.bytes fl)) := by
  cases items with
  | nil => rfl
  | cons o rest =>
    rw [List.map_cons, intercalate_cons]
    simp only [PDFStream.itemWrites, List.flatten_append, itemWrites_flatten_succ fl rest 1
      (by omega), bytes_eq_flatten, List.map_map]
    simp [Function.comp_def, bytes_eq_flatten]

theorem writeAll_recording {σ : Type} (w : Writer σ) (ps : List (List Byte)) :
    ∀ (s : σ) (calls : List (List Byte × WriteResult)),
      (writeAll (recording w) ps (s, calls)).1 = (writeAll w ps s).1
      ∧ (writeAll (recording w) ps (s, calls)).2.1 = (writeAll w ps s).2
      ∧ ∃ new, (writeAll (recording w) ps (s, calls)).2.2 = calls ++ new
          ∧ ShortCircuit (writeAll (recording w) ps (s, calls)).1 new := by
  induction ps with
  | nil =>
    intro s calls
    exact ⟨rfl, rfl, [], by simp [writeAll], by simp [writeAll, ShortCircuit]⟩
  | cons p ps ih =>
    intro s calls
    have hrec : write (recording w) p (s, calls)
        = ((w s p).1.err, ((w s p).2, calls ++ [(p, (w s p).1)])) := rfl
    rw [writeAll_cons, writeAll_cons, hrec]
    cases hr : (w s p).1 with
    | ok =>
      have h1 : write w p s = (none, (w s p).2) := by simp [write, hr, WriteResult.err]
      rw [h1]
      simp only [WriteResult.err, andThen_none]
      obtain ⟨i1, i2, new, i3, i4⟩ := ih (w s p).2 (calls ++ [(p, .ok)])
      refine ⟨i1, i2, (p, .ok) :: new, by rw [i3]; simp, ?_⟩
      generalize (writeAll (recording w) ps ((w s p).2, calls ++ [(p, .ok)])).1 = r at i4
      cases r with
      | none =>
        simp only [ShortCircuit] at i4 ⊢
        intro c hc
        rcases List.mem_cons.mp hc with h | h
        · rw [h]
        · exact i4 c h
      | some e =>
        simp only [ShortCircuit] at i4 ⊢
        obtain ⟨before, q, n, e1, e2⟩ := i4
        refine ⟨(p, .ok) :: before, q, n, by rw [e1]; rfl, ?_⟩
        intro c hc
        rcases List.mem_cons.mp hc with h | h
        · rw [h]
        · exact e2 c h
    | fail n e =>
      have h1 : write w p s = (some e, (w s p).2) := by simp [write, hr, WriteResult.err]
      rw [h1]
      simp only [WriteResult.err, andThen_some]
      exact ⟨trivial, trivial, [(p, .fail n e)], rfl, [], p, n, rfl, by simp⟩

/-! ## The PDF writer: the claims -/

/-- C1: on a sink that accepts every write, `PDFDocument.WritePDF` returns no
error and the sink has taken the header, the framed objects, the reference
table of some offsets `offs`, one per object, and a rest; the entry of object
`i + 1` prints the offset `o = offs[i]` (the digits `formatPad10 o` read back as
`o`), and the output from byte `o` on begins with the line `"<i+1> 0 obj\n"` of
that object, whatever the objects serialize to. -/
theorem PDFDocument_offsets_exact {F σ : Type} (fl : FloatFormat F) (d : PDFDocument F)
    (sizeFirst : Bool) (w : Writer σ) (sent : σ → GoString) (hw : Accepts w sent) (s : σ) :
    ∃ (offs : List Nat) (post : GoString),
      (d.WritePDF fl sizeFirst w s).1 = none
      ∧ sent (d.WritePDF fl sizeFirst w s).2 = sent s ++
          (ascii "%PDF-1.4\n\n" ++ PDFDocument.framed fl d.Objects 0
            ++ (PDFDocument.xrefHead offs.length
                ++ (offs.map fun o => formatPad10 o ++ ascii " 00000 n\r\n").flatten)
            ++ post)
      ∧ offs.length = d.Objects.length
      ∧ ∀ i o, offs[i]? = some o →
          readDecimal (formatPad10 o) = o
          ∧ PDFDocument.objLine i <+:
              (ascii "%PDF-1.4\n\n" ++ PDFDocument.framed fl d.Objects 0
                ++ (PDFDocument.xrefHead offs.length
                    ++ (offs.map fun o => formatPad10 o ++ ascii " 00000 n\r\n").flatten)
                ++ post).drop o := by
  obtain ⟨h1, h2⟩ := PDFDocument_output fl d sizeFirst w sent hw s
  refine ⟨PDFDocument.offsetsFrom fl d.Objects 0 10, _, h1, h2, offsetsFrom_length _ _ _ _, ?_⟩
  intro i o hio
  refine ⟨readDecimal_formatPad10 o, ?_⟩
  have hp := offsetsFrom_points fl d.Objects 0 (ascii "%PDF-1.4\n\n")
    (PDFDocument.xrefTable (PDFDocument.offsetsFrom fl d.Objects 0 10)
      ++ (ascii "\ntrailer\n"
          ++ (PDFDocument.trailer fl d.Objects.length sizeFirst).bytes fl
          ++ PDFDocument.startxref
              (ascii "%PDF-1.4\n\n" ++ PDFDocument.framed fl d.Objects 0).length))
    i o (by rw [header_length]; exact hio)
  simpa [PDFDocument.xrefTable, PDFDocument.xrefEntry, List.append_assoc] using hp

theorem PDFDocument_offsets_exact_witness :
    Accepts bufferWriter id
    ∧ ∃ (offs : List Nat) (post : GoString),
      (sampleDocument.WritePDF intFormat true bufferWriter []).1 = none
      ∧ id (sampleDocument.WritePDF intFormat true bufferWriter []).2 = id [] ++
          (ascii "%PDF-1.4\n\n" ++ PDFDocument.framed intFormat sampleDocument.Objects 0
            ++ (PDFDocument.xrefHead offs.length
                ++ (offs.map fun o => formatPad10 o ++ ascii " 00000 n\r\n").flatten)
            ++ post)
      ∧ offs.length = sampleDocument.Objects.length
      ∧ ∀ i o, offs[i]? = some o →
          readDecimal (formatPad10 o) = o
          ∧ PDFDocument.objLine i <+:
              (ascii "%PDF-1.4\n\n" ++ PDFDocument.framed intFormat sampleDocument.Objects 0
                ++ (PDFDocument.xrefHead offs.length
                    ++ (offs.map fun o => formatPad10 o ++ ascii " 00000 n\r\n").flatten)
                ++ post).drop o :=
  ⟨fun _ _ => ⟨rfl, rfl⟩,
    PDFDocument_offsets_exact intFormat sampleDocument true bufferWriter id
      (fun _ _ => ⟨rfl, rfl⟩) []⟩

/-- C6 (code defect): `PDFName.WritePDF` writes the tab of the name `"A\tB"`
(code 9) as `#9`, with one hexadecimal digit, and a character of code `0x100`
as `#100`, with three; the name `"A B"` of the claim does come out as `/A#20B`. -/
theorem PDFName_escape_not_two_digits :
    (PDFObject.name (ascii "A\tB")).WritePDF intFormat GoString bufferWriter []
        = (none, ascii "/A#9B")
      ∧ (PDFObject.name [0xC4, 0x80]).WritePDF intFormat GoString bufferWriter []
        = (none, ascii "/#100")
      ∧ (PDFObject.name (ascii "A B")).WritePDF intFormat GoString bufferWriter []
        = (none, ascii "/A#20B") := by
  decide

theorem formatInt_natCast (n : Nat) : formatInt (n : Int) = formatNat 10 n := by
  unfold formatInt
  rw [if_neg (by omega)]
  simp

theorem xrefHead_eq (n : Nat) :
    PDFDocument.xrefHead n
      = ascii "xref\n0 " ++ formatNat 10 (n + 1) ++ ascii "\n"
        ++ (ascii "0000000000 65535 f" ++ ascii "\r\n") := by
  unfold PDFDocument.xrefHead
  have h : ((n : Int) + 1) = ((n + 1 : Nat) : Int) := by push_cast; rfl
  rw [h, formatInt_natCast]
  have h2 : ascii "\n0000000000 65535 f\r\n"
      = ascii "\n" ++ (ascii "0000000000 65535 f" ++ ascii "\r\n") := by decide
  rw [h2]
  simp only [List.append_assoc]

/-- C7, as the code has it: on a sink that accepts every write, the reference
table follows the header and the framed objects and is `"xref\n0 <N+1>\n"`, the
free slot `"0000000000 65535 f"` and one entry per object in index order, each
entry ended by `"\r\n"`, `N + 1` entries in all: after the last entry comes
`"\ntrailer\n"`, the trailer dictionary and the `startxref` part, and nothing
else. The entry of an object is its offset `o` (where its line
`"<i+1> 0 obj\n"` begins) padded with zeros to at least ten digits, then
`" 00000 n"`. The digits read back as `o`; they are exactly ten when
`o < 10 ^ 10`. -/
theorem xref_table_format {F σ : Type} (fl : FloatFormat F) (d : PDFDocument F)
    (sizeFirst : Bool) (w : Writer σ) (sent : σ → GoString) (hw : Accepts w sent) (s : σ) :
    ∃ (offs : List Nat),
      (d.WritePDF fl sizeFirst w s).1 = none
      ∧ sent (d.WritePDF fl sizeFirst w s).2 = sent s ++
          (ascii "%PDF-1.4\n\n" ++ PDFDocument.framed fl d.Objects 0
            ++ (ascii "xref\n0 " ++ formatNat 10 (d.Objects.length + 1) ++ ascii "\n"
                ++ (ascii "0000000000 65535 f" ++ ascii "\r\n")
                ++ (offs.map fun o =>
                      formatPad10 o ++ ascii " 00000 n" ++ ascii "\r\n").flatten)
            ++ (ascii "\ntrailer\n"
                ++ (PDFDocument.trailer fl d.Objects.length sizeFirst).bytes fl
                ++ (ascii "\n\nstartxref\n"
                    ++ formatNat 10
                        (ascii "%PDF-1.4\n\n" ++ PDFDocument.framed fl d.Objects 0).length
                    ++ ascii "\n%%EOF\n")))
      ∧ offs.length = d.Objects.length
      ∧ (∀ i o, offs[i]? = some o →
          PDFDocument.objLine i <+:
            (ascii "%PDF-1.4\n\n" ++ PDFDocument.framed fl d.Objects 0).drop o)
      ∧ ∀ o ∈ offs, readDecimal (formatPad10 o) = o ∧ 10 ≤ (formatPad10 o).length
          ∧ (o < 10 ^ 10 → (formatPad10 o).length = 10) := by
  obtain ⟨h1, h2⟩ := PDFDocument_output fl d sizeFirst w sent hw s
  refine ⟨PDFDocument.offsetsFrom fl d.Objects 0 10,
    h1, ?_, offsetsFrom_length _ _ _ _, ?_, ?_⟩
  · rw [h2, PDFDocument.startxref, formatInt_natCast]
    congr 2
    rw [PDFDocument.xrefTable, xrefHead_eq, offsetsFrom_length]
    congr 3
    apply List.map_congr_left
    intro o _
    have h3 : ascii " 00000 n\r\n" = ascii " 00000 n" ++ ascii "\r\n" := by decide
    rw [PDFDocument.xrefEntry, h3, List.append_assoc]
  · intro i o hio
    have hp := offsetsFrom_points fl d.Objects 0 (ascii "%PDF-1.4\n\n") [] i o
      (by rw [header_length]; exact hio)
    simpa using hp
  · intro o _
    exact ⟨readDecimal_formatPad10 o, (formatPad10_length o).1, (formatPad10_length o).2⟩

theorem xref_table_format_witness :
    Accepts bufferWriter id
    ∧ (sampleDocument.WritePDF intFormat true bufferWriter []).2
        = ascii "%PDF-1.4\n\n" ++ PDFDocument.framed intFormat sampleDocument.Objects 0
          ++ ascii "xref\n0 5\n0000000000 65535 f\r\n0000000010 00000 n\r\n0000000060 00000 n\r\n0000000266 00000 n\r\n0000000298 00000 n\r\n"
          ++ ascii "\ntrailer\n<<\n/Size 5\n/Root 1 0 R\n>>\n\nstartxref\n349\n%%EOF\n"
    ∧ ∃ (offs : List Nat),
      (sampleDocument.WritePDF intFormat true bufferWriter []).1 = none
      ∧ id (sampleDocument.WritePDF intFormat true bufferWriter []).2 = id [] ++
          (ascii "%PDF-1.4\n\n" ++ PDFDocument.framed intFormat sampleDocument.Objects 0
            ++ (ascii "xref\n0 " ++ formatNat 10 (sampleDocument.Objects.length + 1) ++ ascii "\n"
                ++ (ascii "0000000000 65535 f" ++ ascii "\r\n")
                ++ (offs.map fun o =>
                      formatPad10 o ++ ascii " 00000 n" ++ ascii "\r\n").flatten)
            ++ (ascii "\ntrailer\n"
                ++ (PDFDocument.trailer intFormat sampleDocument.Objects.length true).bytes
                    intFormat
                ++ (ascii "\n\nstartxref\n"
                    ++ formatNat 10
                        (ascii "%PDF-1.4\n\n"
                          ++ PDFDocument.framed intFormat sampleDocument.Objects 0).length
                    ++ ascii "\n%%EOF\n")))
      ∧ offs.length = sampleDocument.Objects.length
      ∧ (∀ i o, offs[i]? = some o →
          PDFDocument.objLine i <+:
            (ascii "%PDF-1.4\n\n"
              ++ PDFDocument.framed intFormat sampleDocument.Objects 0).drop o)
      ∧ ∀ o ∈ offs, readDecimal (formatPad10 o) = o ∧ 10 ≤ (formatPad10 o).length
          ∧ (o < 10 ^ 10 → (formatPad10 o).length = 10) :=
  ⟨fun _ _ => ⟨rfl, rfl⟩, by decide!,
    xref_table_format intFormat sampleDocument true bufferWriter id (fun _ _ => ⟨rfl, rfl⟩) []⟩

theorem bigPayload_length : bigPayload.length = 10000000000 :=
  List.length_replicate _ _

theorem two_raw_offsets (r : GoString) (L o : Nat) (hL : r.length = L) (ho : o = 27 + L) :
    PDFDocument.offsetsFrom intFormat [.raw r, .raw []] 0 10 = [10, o] := by
  have h1 : (PDFDocument.objLine 0).length = 8 := by decide
  have h2 : (ascii "\nendobj\n\n").length = 9 := by decide
  subst hL ho
  simp only [PDFDocument.offsetsFrom, PDFObject.writes, List.flatten_append,
    List.flatten_cons, List.flatten_nil, List.append_nil, List.length_append, h1, h2]
  congr 2
  omega

theorem two_raw_output (r : GoString) (L o : Nat) (hL : r.length = L) (ho : o = 27 + L) :
    (PDFDocument.WritePDF intFormat ⟨[.raw r, .raw []]⟩ true bufferWriter []).2
      = ascii "%PDF-1.4\n\n" ++ PDFDocument.framed intFormat [.raw r, .raw []] 0
        ++ (PDFDocument.xrefHead 2 ++ (PDFDocument.xrefEntry 10 ++ PDFDocument.xrefEntry o))
        ++ (ascii "\ntrailer\n" ++ (PDFDocument.trailer intFormat 2 true).bytes intFormat
            ++ PDFDocument.startxref
                (ascii "%PDF-1.4\n\n"
                  ++ PDFDocument.framed intFormat [.raw r, .raw []] 0).length) := by
  obtain ⟨_, h2⟩ := PDFDocument_output intFormat ⟨[.raw r, .raw []]⟩ true bufferWriter id
    bufferWriter_accepts []
  simp only [id, List.nil_append] at h2
  rw [h2, two_raw_offsets r L o hL ho]
  simp only [PDFDocument.xrefTable, List.map_cons, List.map_nil, List.flatten_cons,
    List.flatten_nil, List.append_nil, List.length_cons, List.length_nil]

/-- C7 as stated fails: for a document whose first object is `10 ^ 10` bytes
long, written to a buffer, the table has the entries of the offsets 10 and
10000000027, and the second is printed with eleven digits, so the two entries
are 20 and 21 bytes wide. -/
theorem xref_entry_of_eleven_digits :
    (PDFDocument.WritePDF intFormat ⟨[.raw bigPayload, .raw []]⟩ true bufferWriter []).2
      = ascii "%PDF-1.4\n\n" ++ PDFDocument.framed intFormat [.raw bigPayload, .raw []] 0
        ++ (PDFDocument.xrefHead 2
            ++ (PDFDocument.xrefEntry 10 ++ PDFDocument.xrefEntry 10000000027))
        ++ (ascii "\ntrailer\n" ++ (PDFDocument.trailer intFormat 2 true).bytes intFormat
            ++ PDFDocument.startxref
                (ascii "%PDF-1.4\n\n"
                  ++ PDFDocument.framed intFormat [.raw bigPayload, .raw []] 0).length)
    ∧ PDFDocument.xrefEntry 10 = ascii "0000000010 00000 n\r\n"
    ∧ PDFDocument.xrefEntry 10000000027 = ascii "10000000027 00000 n\r\n"
    ∧ (PDFDocument.xrefEntry 10).length = 20
    ∧ (PDFDocument.xrefEntry 10000000027).length = 21 :=
  ⟨two_raw_output bigPayload 10000000000 10000000027 bigPayload_length (by decide),
    by decide, by decide, by decide, by decide⟩

/-- C8: on a sink that accepts every write, `PDFDocument.WritePDF` returns no
error and what the sink has taken is the header and the framed objects, then the
reference table, which begins with `xref`, a middle part, and at the end
`"\n\nstartxref\n"`, a decimal number and `"\n%%EOF\n"`; the number is the
number of bytes of the header and the framed objects, the position at which
`xref` begins. -/
theorem startxref_is_xref_position {F σ : Type} (fl : FloatFormat F) (d : PDFDocument F)
    (sizeFirst : Bool) (w : Writer σ) (sent : σ → GoString) (hw : Accepts w sent) (s : σ) :
    ∃ (table mid : GoString),
      (d.WritePDF fl sizeFirst w s).1 = none
      ∧ sent (d.WritePDF fl sizeFirst w s).2 = sent s ++
          (ascii "%PDF-1.4\n\n" ++ PDFDocument.framed fl d.Objects 0
            ++ (ascii "xref" ++ table) ++ mid
            ++ (ascii "\n\nstartxref\n"
                ++ formatNat 10 (ascii "%PDF-1.4\n\n" ++ PDFDocument.framed fl d.Objects 0).length
                ++ ascii "\n%%EOF\n"))
      ∧ readDecimal
          (formatNat 10 (ascii "%PDF-1.4\n\n" ++ PDFDocument.framed fl d.Objects 0).length)
          = (ascii "%PDF-1.4\n\n" ++ PDFDocument.framed fl d.Objects 0).length
      ∧ ascii "xref" <+:
          (ascii "%PDF-1.4\n\n" ++ PDFDocument.framed fl d.Objects 0
            ++ (ascii "xref" ++ table) ++ mid
            ++ (ascii "\n\nstartxref\n"
                ++ formatNat 10 (ascii "%PDF-1.4\n\n" ++ PDFDocument.framed fl d.Objects 0).length
                ++ ascii "\n%%EOF\n")).drop
            (ascii "%PDF-1.4\n\n" ++ PDFDocument.framed fl d.Objects 0).length := by
  obtain ⟨h1, h2⟩ := PDFDocument_output fl d sizeFirst w sent hw s
  have hx : ascii "xref\n0 " = ascii "xref" ++ ascii "\n0 " := by decide
  refine ⟨ascii "\n0 " ++ formatNat 10 (d.Objects.length + 1) ++ ascii "\n"
      ++ (ascii "0000000000 65535 f" ++ ascii "\r\n")
      ++ ((PDFDocument.offsetsFrom fl d.Objects 0 10).map PDFDocument.xrefEntry).flatten,
    ascii "\ntrailer\n" ++ (PDFDocument.trailer fl d.Objects.length sizeFirst).bytes fl,
    h1, ?_, readDecimal_formatNat _, ?_⟩
  · rw [h2, PDFDocument.xrefTable, xrefHead_eq, offsetsFrom_length, hx, PDFDocument.startxref,
      formatInt_natCast]
    simp only [List.append_assoc]
  · simp only [List.append_assoc]
    rw [← List.append_assoc (ascii "%PDF-1.4\n\n"), List.drop_left]
    exact List.prefix_append _ _

theorem startxref_is_xref_position_witness :
    Accepts bufferWriter id
    ∧ ∃ (table mid : GoString),
      (sampleDocument.WritePDF intFormat true bufferWriter []).1 = none
      ∧ id (sampleDocument.WritePDF intFormat true bufferWriter []).2 = id [] ++
          (ascii "%PDF-1.4\n\n" ++ PDFDocument.framed intFormat sampleDocument.Objects 0
            ++ (ascii "xref" ++ table) ++ mid
            ++ (ascii "\n\nstartxref\n"
                ++ formatNat 10
                    (ascii "%PDF-1.4\n\n"
                      ++ PDFDocument.framed intFormat sampleDocument.Objects 0).length
                ++ ascii "\n%%EOF\n"))
      ∧ readDecimal
          (formatNat 10
            (ascii "%PDF-1.4\n\n" ++ PDFDocument.framed intFormat sampleDocument.Objects 0).length)
          = (ascii "%PDF-1.4\n\n" ++ PDFDocument.framed intFormat sampleDocument.Objects 0).length
      ∧ ascii "xref" <+:
          (ascii "%PDF-1.4\n\n" ++ PDFDocument.framed intFormat sampleDocument.Objects 0
            ++ (ascii "xref" ++ table) ++ mid
            ++ (ascii "\n\nstartxref\n"
                ++ formatNat 10
                    (ascii "%PDF-1.4\n\n"
                      ++ PDFDocument.framed intFormat sampleDocument.Objects 0).length
                ++ ascii "\n%%EOF\n")).drop
            (ascii "%PDF-1.4\n\n" ++ PDFDocument.framed intFormat sampleDocument.Objects 0).length :=
  ⟨fun _ _ => ⟨rfl, rfl⟩,
    startxref_is_xref_position intFormat sampleDocument true bufferWriter id
      (fun _ _ => ⟨rfl, rfl⟩) []⟩

/-- C10: on a sink that accepts every write, `PDFStream.WritePDF` returns no
error and the sink has taken `"<< /Length N >>\nstream\n"`, the payload and
`"\nendstream\n"`, where the payload is the serializations of the inner objects
in order, joined by single newline bytes, and `N` is the number of bytes of the
payload in decimal (`0` for the empty stream). -/
theorem PDFStream_WritePDF_output {F σ : Type} (fl : FloatFormat F)
    (items : List (PDFObject F)) (w : Writer σ) (sent : σ → GoString) (hw : Accepts w sent)
    (s : σ) :
    ((PDFObject.stream items).WritePDF fl σ w s).1 = none
    ∧ sent ((PDFObject.stream items).WritePDF fl σ w s).2 = sent s ++
        (ascii "<< /Length "
          ++ formatNat 10 (List.intercalate [10] (items.map (PDFObject.bytes fl))).length
          ++ ascii " >>\nstream\n"
          ++ List.intercalate [10] (items.map (PDFObject.bytes fl))
          ++ ascii "\nendstream\n")
    ∧ readDecimal (formatNat 10 (List.intercalate [10] (items.map (PDFObject.bytes fl))).length)
        = (List.intercalate [10] (items.map (PDFObject.bytes fl))).length
    ∧ (items = [] → formatNat 10 (List.intercalate [10] (items.map (PDFObject.bytes fl))).length
        = ascii "0") := by
  rw [WritePDF_eq_writeAll]
  obtain ⟨h1, h2⟩ := writeAll_accepts w sent hw ((PDFObject.stream items).writes fl) s
  refine ⟨h1, ?_, readDecimal_formatNat _, ?_⟩
  · rw [h2]
    congr 1
    simp only [PDFObject.writes, itemWrites_flatten]
    split
    · simp only [List.flatten_append, List.flatten_cons, List.flatten_nil, List.append_nil,
        List.append_assoc]
    · rename_i hlen
      have hnil : List.intercalate [10] (items.map (PDFObject.bytes fl)) = [] := by
        apply List.eq_nil_of_length_eq_zero
        omega
      simp only [hnil, List.flatten_append, List.flatten_cons, List.flatten_nil,
        List.append_nil, List.append_assoc, List.nil_append]
  · intro h
    subst h
    exact (by decide : formatNat 10 0 = ascii "0")

theorem PDFStream_WritePDF_output_witness :
    Accepts bufferWriter id
    ∧ ((PDFObject.stream [.name (ascii "A"), .boolean true, .reference 7]).WritePDF intFormat
        GoString bufferWriter []).2
      = ascii "<< /Length 13 >>\nstream\n/A\ntrue\n7 0 R\nendstream\n"
    ∧ ((PDFObject.stream [.name (ascii "A"), .boolean true, .reference 7]).WritePDF intFormat
          GoString bufferWriter []).1 = none
    ∧ id ((PDFObject.stream [.name (ascii "A"), .boolean true, .reference 7]).WritePDF intFormat
          GoString bufferWriter []).2
        = id [] ++
          (ascii "<< /Length "
            ++ formatNat 10 (List.intercalate [10]
                ([PDFObject.name (ascii "A"), .boolean true, .reference 7].map
                  (PDFObject.bytes intFormat))).length
            ++ ascii " >>\nstream\n"
            ++ List.intercalate [10]
                ([PDFObject.name (ascii "A"), .boolean true, .reference 7].map
                  (PDFObject.bytes intFormat))
            ++ ascii "\nendstream\n") :=
  ⟨fun _ _ => ⟨rfl, rfl⟩, by decide,
    (PDFStream_WritePDF_output intFormat [.name (ascii "A"), .boolean true, .reference 7]
      bufferWriter id (fun _ _ => ⟨rfl, rfl⟩) []).1,
    (PDFStream_WritePDF_output intFormat [.name (ascii "A"), .boolean true, .reference 7]
      bufferWriter id (fun _ _ => ⟨rfl, rfl⟩) []).2.1⟩

theorem ShortCircuit_none_of_ok (err : Option Error) (calls : List (List Byte × WriteResult))
    (h : ShortCircuit err calls) (hok : ∀ c ∈ calls, c.2 = .ok) : err = none := by
  cases err with
  | none => rfl
  | some e =>
    obtain ⟨before, p, n, h1, _⟩ := h
    have := hok (p, .fail n e) (by rw [h1]; simp)
    simp at this

theorem writeAll_short_circuits {σ : Type} (w : Writer σ) (ps : List (List Byte)) (s : σ) :
    ShortCircuit (writeAll (recording w) ps (s, [])).1 (writeAll (recording w) ps (s, [])).2.2
    ∧ ((∀ c ∈ (writeAll (recording w) ps (s, [])).2.2, c.2 = .ok) →
        (writeAll (recording w) ps (s, [])).1 = none)
    ∧ (writeAll (recording w) ps (s, [])).1 = (writeAll w ps s).1
    ∧ (writeAll (recording w) ps (s, [])).2.1 = (writeAll w ps s).2 := by
  obtain ⟨h1, h2, new, h3, h4⟩ := writeAll_recording w ps s []
  rw [List.nil_append] at h3
  rw [← h3] at h4
  exact ⟨h4, ShortCircuit_none_of_ok _ _ h4, h1, h2⟩

/-- C9: for every object, every document and every sink, `WritePDF` on the
sink with a record of its calls of `Write` ends in one of two ways: it returns
no error and every call succeeded, or it returns an error `e`, the last call of
the record is the one that failed with `e`, and every call before it succeeded
(so the error is that of the first failing call and no call follows it). If no
call fails, no error is returned. The record changes neither the error nor the
state of the sink. -/
theorem WritePDF_short_circuits {F σ : Type} (fl : FloatFormat F) (o : PDFObject F)
    (d : PDFDocument F) (sizeFirst : Bool) (w : Writer σ) (s : σ) :
    (ShortCircuit (o.WritePDF fl _ (recording w) (s, [])).1
        (o.WritePDF fl _ (recording w) (s, [])).2.2
      ∧ ((∀ c ∈ (o.WritePDF fl _ (recording w) (s, [])).2.2, c.2 = .ok) →
          (o.WritePDF fl _ (recording w) (s, [])).1 = none)
      ∧ (o.WritePDF fl _ (recording w) (s, [])).1 = (o.WritePDF fl σ w s).1
      ∧ (o.WritePDF fl _ (recording w) (s, [])).2.1 = (o.WritePDF fl σ w s).2)
    ∧ (ShortCircuit (d.WritePDF fl sizeFirst (recording w) (s, [])).1
        (d.WritePDF fl sizeFirst (recording w) (s, [])).2.2
      ∧ ((∀ c ∈ (d.WritePDF fl sizeFirst (recording w) (s, [])).2.2, c.2 = .ok) →
          (d.WritePDF fl sizeFirst (recording w) (s, [])).1 = none)
      ∧ (d.WritePDF fl sizeFirst (recording w) (s, [])).1 = (d.WritePDF fl sizeFirst w s).1
      ∧ (d.WritePDF fl sizeFirst (recording w) (s, [])).2.1
          = (d.WritePDF fl sizeFirst w s).2) := by
  constructor
  · rw [WritePDF_eq_writeAll, WritePDF_eq_writeAll]
    exact writeAll_short_circuits w _ s
  · rw [PDFDocument_WritePDF_eq_writeAll, PDFDocument_WritePDF_eq_writeAll]
    exact writeAll_short_circuits w _ s

/-- An instance of the short circuit: on a sink that fails its sixth call of
`Write`, the sample document returns that error after six calls, and the sink
has taken what the first five calls wrote. -/
theorem sampleDocument_on_failing_sink :
    (sampleDocument.WritePDF intFormat true (recording (failingAt 5)) ((0, []), [])).1
        = some ⟨"disk full"⟩
      ∧ ((sampleDocument.WritePDF intFormat true (recording (failingAt 5)) ((0, []), [])).2.2).map
          Prod.snd = [.ok, .ok, .ok, .ok, .ok, .fail 0 ⟨"disk full"⟩]
      ∧ (sampleDocument.WritePDF intFormat true (failingAt 5) (0, [])).2
          = (6, ascii "%PDF-1.4\n\n1 0 obj\n<<\n/Type /Catalog") := by
  decide

/-! ## The typesetter: positions, unbroken strings, number of lines -/

theorem outer_positions (s : TypeSetter) (Text : GoString) :
    ∀ (fuel : Nat) (y : ℚ) (start lb : Int) (result lines : List OutLine) (y' : ℚ),
      y = s.Y1 - (result.length : ℚ) * s.LineHeight →
      (∀ (j : Nat) (l : OutLine), result[j]? = some l →
        l.X = s.X1 ∧ l.Pt = s.Pt ∧ l.Y = s.Y1 - ((j : ℚ) + 1) * s.LineHeight) →
      s.outer Text fuel y start lb result = .returned lines y' →
      ∀ (j : Nat) (l : OutLine), lines[j]? = some l →
        l.X = s.X1 ∧ l.Pt = s.Pt ∧ l.Y = s.Y1 - ((j : ℚ) + 1) * s.LineHeight := by
  intro fuel
  induction fuel with
  | zero => intro y start lb result lines y' _ _ h; simp [TypeSetter.outer] at h
  | succ fuel ih =>
    intro y start lb result lines y' hy hres h
    have hnew : ∀ (text : GoString) (j : Nat) (l : OutLine),
        (result ++ [{ X := s.X1, Y := y - s.LineHeight, Pt := s.Pt, Text := text }])[j]?
          = some l →
        l.X = s.X1 ∧ l.Pt = s.Pt ∧ l.Y = s.Y1 - ((j : ℚ) + 1) * s.LineHeight := by
      intro text j l hj
      by_cases hlt : j < result.length
      · rw [List.getElem?_append_left hlt] at hj
        exact hres j l hj
      · rw [List.getElem?_append_right (by omega)] at hj
        have hj0 : j - result.length = 0 := by
          by_contra hne
          obtain ⟨k, hk⟩ : ∃ k, j - result.length = k + 1 := ⟨j - result.length - 1, by omega⟩
          rw [hk] at hj
          simp at hj
        rw [hj0] at hj
        simp only [List.getElem?_cons_zero, Option.some.injEq] at hj
        subst hj
        have hjl : j = result.length := by omega
        subst hjl
        refine ⟨rfl, rfl, ?_⟩
        simp only [hy]
        ring
    have hy2 : ∀ (text : GoString), y - s.LineHeight = s.Y1 -
        (((result ++ [({ X := s.X1, Y := y - s.LineHeight, Pt := s.Pt, Text := text }
          : OutLine)]).length : ℕ) : ℚ) * s.LineHeight := by
      intro text
      simp only [List.length_append, List.length_singleton, hy]
      push_cast
      ring
    simp only [TypeSetter.outer] at h
    split at h
    · simp at h
    · split at h
      · split at h
        · simp at h
        · exact ih _ _ _ _ _ _ (hy2 _) (hnew _) h
      · simp only [SetResult.returned.injEq] at h
        obtain ⟨h1, _⟩ := h
        subst h1
        exact hnew _

theorem scan_nil (s : TypeSetter) (avail : ℚ) (lb : Int) (w : ℚ) :
    s.scan avail [] lb w = .exhausted lb := rfl

theorem scan_no_break (s : TypeSetter) (avail : ℚ) (l : List (Nat × Nat)) :
    ∀ (w : ℚ), (∀ ir ∈ l, ir.2 ≠ 32 ∧ ir.2 ≠ 45) → s.scan avail l (-1) w = .exhausted (-1) := by
  induction l with
  | nil => intro w _; rfl
  | cons ir rest ih =>
    obtain ⟨i, r⟩ := ir
    intro w h
    have hr := h (i, r) (List.mem_cons_self _ _)
    have hno : ¬ (r = 32 ∨ r = 45) := by
      intro hc
      rcases hc with hc | hc
      · exact hr.1 hc
      · exact hr.2 hc
    rw [scan_cons, if_neg hno, if_neg (by simp)]
    exact ih _ (fun ir' hir => h ir' (List.mem_cons_of_mem _ hir))

theorem decodeRune_ascii (b : Byte) (rest : GoString)
    (h : (decodeRune (b :: rest)).1 < 128) : (decodeRune (b :: rest)).1 = b.toNat := by
  simp only [decodeRune] at h ⊢
  split_ifs at h ⊢
  all_goals first
    | rfl
    | (exfalso; revert h; simp only [RuneError]; omega)
    | (exfalso
       revert h
       split <;> (try split_ifs) <;>
         simp_all only [RuneError, inRange, Bool.and_eq_true, decide_eq_true_eq] <;> omega)

theorem rangeFrom_ascii (fuel : Nat) :
    ∀ (i : Nat) (s : GoString) (ir : Nat × Nat), ir ∈ rangeFrom fuel i s → ir.2 < 128 →
      ∃ b ∈ s, b.toNat = ir.2 := by
  induction fuel with
  | zero => intro i s ir h; simp [rangeFrom] at h
  | succ fuel ih =>
    intro i s ir h hlt
    cases s with
    | nil => simp [rangeFrom] at h
    | cons b rest =>
      simp only [rangeFrom, List.mem_cons] at h
      rcases h with h | h
      · subst h
        exact ⟨b, List.mem_cons_self _ _, (decodeRune_ascii b rest hlt).symm⟩
      · obtain ⟨b', hb', hb2⟩ := ih _ _ ir h hlt
        exact ⟨b', List.mem_of_mem_drop hb', hb2⟩

theorem sliceFrom_zero (t : GoString) : sliceFrom t 0 = some t := by
  unfold sliceFrom slice
  rw [if_pos ⟨le_refl _, by omega, le_refl _⟩]
  simp

theorem sliceFrom_nonempty_lt (t : GoString) (start : Int) (rest : GoString)
    (h : sliceFrom t start = some rest) (hne : rest ≠ []) : start < t.length := by
  unfold sliceFrom slice at h
  split at h
  · rename_i hc
    simp only [Option.some.injEq] at h
    by_contra hge
    apply hne
    rw [← h]
    have : t.length ≤ start.toNat := by omega
    simp [List.drop_eq_nil_of_le this]
  · simp at h

theorem scan_wrapped_nonempty (s : TypeSetter) (avail : ℚ) (l : List (Nat × Nat)) (lb : Int)
    (w : ℚ) (lb' : Int) (h : s.scan avail l lb w = .wrapped lb') : l ≠ [] := by
  intro hl
  subst hl
  simp [TypeSetter.scan] at h

theorem rangeString_nil : rangeString [] = [] := rfl

/-- Within `fuel` iterations with `len(Text) - start < fuel` the loop `Outer` ends. -/
theorem outer_ends (s : TypeSetter) (Text : GoString) :
    ∀ (fuel : Nat) (y : ℚ) (start lb : Int) (result : List OutLine),
      -1 ≤ lb → 0 < fuel → (Text.length : Int) - start < fuel →
      s.outer Text fuel y start lb result ≠ .outOfFuel := by
  intro fuel
  induction fuel with
  | zero => intro y start lb result _ h0; omega
  | succ fuel ih =>
    intro y start lb result hlb _ hf
    simp only [TypeSetter.outer]
    split
    · simp
    · rename_i rest hrest
      split
      · rename_i lb' hscan
        have hlb' := scan_wrapped_nonneg _ _ _ _ _ _ hlb hscan
        have hne : rest ≠ [] := by
          intro hr
          subst hr
          exact scan_wrapped_nonempty _ _ _ _ _ _ hscan rangeString_nil
        have hlt := sliceFrom_nonempty_lt _ _ _ hrest hne
        split
        · simp
        · apply ih
          · omega
          · push_cast at hf; omega
          · push_cast at hf ⊢; omega
      · simp

/-- A run of the loop `Outer` that ends does not depend on the iterations
that are left over. -/
theorem outer_more_fuel (s : TypeSetter) (Text : GoString) :
    ∀ (fuel : Nat) (y : ℚ) (start lb : Int) (result : List OutLine),
      s.outer Text fuel y start lb result ≠ .outOfFuel →
      s.outer Text (fuel + 1) y start lb result = s.outer Text fuel y start lb result := by
  intro fuel
  induction fuel with
  | zero => intro y start lb result h; simp [TypeSetter.outer] at h
  | succ fuel ih =>
    intro y start lb result h
    rw [TypeSetter.outer] at h ⊢
    rw [TypeSetter.outer]
    split
    · rfl
    · rename_i rest hrest
      simp only [hrest] at h
      split
      · rename_i lb' hscan
        simp only [hscan] at h
        split
        · rfl
        · rename_i text htext
          simp only [htext] at h
          exact ih _ _ _ _ h
      · rfl

theorem outer_line_count (s : TypeSetter) (Text : GoString) :
    ∀ (fuel : Nat) (y : ℚ) (start lb : Int) (result lines : List OutLine) (y' : ℚ),
      -1 ≤ lb → s.outer Text fuel y start lb result = .returned lines y' →
      (lines.length : Int) ≤ result.length + ((Text.length : Int) - start) + 1 := by
  intro fuel
  induction fuel with
  | zero => intro y start lb result lines y' _ h; simp [TypeSetter.outer] at h
  | succ fuel ih =>
    intro y start lb result lines y' hlb h
    simp only [TypeSetter.outer] at h
    split at h
    · simp at h
    · rename_i rest hrest
      have hst := sliceFrom_some_le _ _ _ hrest
      split at h
      · rename_i lb' hscan
        have hlb' := scan_wrapped_nonneg _ _ _ _ _ _ hlb hscan
        split at h
        · simp at h
        · have := ih _ _ _ _ _ _ (by omega) h
          simp only [List.length_append, List.length_singleton] at this
          push_cast at this
          omega
      · simp only [SetResult.returned.injEq] at h
        obtain ⟨h1, _⟩ := h
        subst h1
        simp only [List.length_append, List.length_singleton]
        push_cast
        omega

theorem rangeString_no_break (Text : GoString) (h : ∀ b ∈ Text, b ≠ 32 ∧ b ≠ 45) :
    ∀ ir ∈ rangeString Text, ir.2 ≠ 32 ∧ ir.2 ≠ 45 := by
  intro ir hir
  constructor
  · intro h32
    obtain ⟨b, hb, hb2⟩ := rangeFrom_ascii _ _ _ ir hir (by omega)
    have : b = 32 := UInt8.toNat.inj (by rw [hb2, h32]; rfl)
    exact (h b hb).1 this
  · intro h45
    obtain ⟨b, hb, hb2⟩ := rangeFrom_ascii _ _ _ ir hir (by omega)
    have : b = 45 := UInt8.toNat.inj (by rw [hb2, h45]; rfl)
    exact (h b hb).2 this

/-- C14: for a source string without a space byte and without a hyphen byte
(the empty string too), whatever the widths, the point size and the span,
`Set` returns exactly one line, with the whole string as its text, at
`X = X1` and `Y = Y1 - LineHeight`. -/
theorem Set_unbroken_one_line (s : TypeSetter) (Text : GoString)
    (h : ∀ b ∈ Text, b ≠ 32 ∧ b ≠ 45) :
    s.Set Text
      = .returned [{ X := s.X1, Y := s.Y1 - s.LineHeight, Pt := s.Pt, Text := Text }]
          (s.Y1 - s.LineHeight) := by
  unfold TypeSetter.Set
  simp only [TypeSetter.outer, sliceFrom_zero,
    scan_no_break s _ _ 0 (rangeString_no_break Text h), List.nil_append]

theorem Set_unbroken_one_line_witness :
    (∀ b ∈ ascii "Pneumonoultramicroscopicsilicovolcanoconi", b ≠ 32 ∧ b ≠ 45)
    ∧ FontMetrics.Width ⟨fun _ => 500⟩ 12 (ascii "Pneumonoultramicroscopicsilicovolcanoconi")
        > 100 - 58
    ∧ TypeSetter.Set ⟨⟨fun _ => 500⟩, 12, 18, 58, 640, 100⟩
        (ascii "Pneumonoultramicroscopicsilicovolcanoconi")
      = .returned [{ X := 58, Y := 640 - 18, Pt := 12,
                     Text := ascii "Pneumonoultramicroscopicsilicovolcanoconi" }] (640 - 18) :=
  ⟨by decide, by decide!,
    Set_unbroken_one_line ⟨⟨fun _ => 500⟩, 12, 18, 58, 640, 100⟩
      (ascii "Pneumonoultramicroscopicsilicovolcanoconi") (by decide)⟩

/-- C19: when `Set` returns, every line has `X = X1` and `Pt = Pt`, and the
line of index `j` (counted from 0, so the `j + 1`-th line) has
`Y = Y1 - (j + 1) * LineHeight`; so each line is one `LineHeight` below the line
before it, strictly below when `LineHeight` is positive. -/
theorem Set_line_positions (s : TypeSetter) (Text : GoString) (lines : List OutLine) (y : ℚ)
    (h : s.Set Text = .returned lines y) :
    (∀ (j : Nat) (l : OutLine), lines[j]? = some l →
      l.X = s.X1 ∧ l.Pt = s.Pt ∧ l.Y = s.Y1 - ((j : ℚ) + 1) * s.LineHeight)
    ∧ (∀ (j : Nat) (l l' : OutLine), lines[j]? = some l → lines[j + 1]? = some l' →
        l'.Y = l.Y - s.LineHeight ∧ (0 < s.LineHeight → l'.Y < l.Y)) := by
  have hpos := outer_positions s Text _ _ _ _ _ lines y (by simp) (by simp) h
  refine ⟨hpos, ?_⟩
  intro j l l' hl hl'
  obtain ⟨_, _, h1⟩ := hpos j l hl
  obtain ⟨_, _, h2⟩ := hpos (j + 1) l' hl'
  have heq : l'.Y = l.Y - s.LineHeight := by
    rw [h1, h2]
    push_cast
    ring
  exact ⟨heq, fun hp => by rw [heq]; linarith⟩

theorem Set_line_positions_witness :
    TypeSetter.Set ⟨⟨fun _ => 500⟩, 12, 18, 58, 640, 100⟩ (ascii "Hello wide world")
        = .returned [⟨58, 622, 12, ascii "Hello"⟩, ⟨58, 604, 12, ascii "wide"⟩,
            ⟨58, 586, 12, ascii "world"⟩] 586
    ∧ (∀ (j : Nat) (l : OutLine),
        [(⟨58, 622, 12, ascii "Hello"⟩ : OutLine), ⟨58, 604, 12, ascii "wide"⟩,
            ⟨58, 586, 12, ascii "world"⟩][j]? = some l →
        l.X = 58 ∧ l.Pt = 12 ∧ l.Y = 640 - ((j : ℚ) + 1) * 18) :=
  ⟨by decide!,
    (Set_line_positions ⟨⟨fun _ => 500⟩, 12, 18, 58, 640, 100⟩ (ascii "Hello wide world")
      [⟨58, 622, 12, ascii "Hello"⟩, ⟨58, 604, 12, ascii "wide"⟩, ⟨58, 586, 12, ascii "world"⟩]
      586 (by decide!)).1⟩

/-- C20: `Set` terminates on every input. A break offset that is used is not
negative, so a line that is not the last moves `start` forward by at least one
byte; `len(Text) + 1` iterations of the loop `Outer` are enough for the call
to end (by returning, or by a panic), and at most `len(Text) + 1` lines are
returned. -/
theorem Set_terminates (s : TypeSetter) (Text : GoString) :
    s.outer Text (Text.length + 1) s.Y1 0 (-1) [] ≠ .outOfFuel
    ∧ s.Set Text = s.outer Text (Text.length + 1) s.Y1 0 (-1) []
    ∧ (∀ (l : List (Nat × Nat)) (lastBreak : Int) (w : ℚ) (used : Int),
        -1 ≤ lastBreak → s.scan (s.X2 - s.X1) l lastBreak w = .wrapped used → 0 ≤ used)
    ∧ (∀ (lines : List OutLine) (y : ℚ), s.Set Text = .returned lines y →
        lines.length ≤ Text.length + 1) := by
  have hend : s.outer Text (Text.length + 1) s.Y1 0 (-1) [] ≠ .outOfFuel :=
    outer_ends s Text _ _ _ _ _ (by omega) (by omega) (by push_cast; omega)
  refine ⟨hend, ?_, ?_, ?_⟩
  · unfold TypeSetter.Set
    exact outer_more_fuel s Text _ _ _ _ _ hend
  · intro l lastBreak w used hlb hscan
    exact scan_wrapped_nonneg s _ l lastBreak w used hlb hscan
  · intro lines y h
    have := outer_line_count s Text _ _ _ _ _ lines y (by omega) h
    simp only [List.length_nil] at this
    omega

/-! ## Arrays, strings, names, dictionaries: the claims -/

theorem elemWrites_flatten {F : Type} (fl : FloatFormat F) (a : List (PDFObject F)) :
    (PDFArray.elemWrites fl a).flatten = (a.map fun v => v.bytes fl ++ ascii " ").flatten := by
  have hsp : ascii " " = [32] := by decide
  induction a with
  | nil => rfl
  | cons v rest ih =>
    simp only [PDFArray.elemWrites, List.flatten_append, List.flatten_cons, List.flatten_nil,
      List.append_nil, ih, bytes_eq_flatten, List.map_cons, hsp, List.append_assoc]

/-- C11, as the code has it: on a sink that accepts every write,
`PDFArray.WritePDF` returns no error and the sink has taken `"[ "`, then
each element followed by one space, then `" ]"`. -/
theorem PDFArray_WritePDF_output {F σ : Type} (fl : FloatFormat F) (a : List (PDFObject F))
    (w : Writer σ) (sent : σ → GoString) (hw : Accepts w sent) (s : σ) :
    ((PDFObject.array a).WritePDF fl σ w s).1 = none
    ∧ sent ((PDFObject.array a).WritePDF fl σ w s).2 = sent s ++
        (ascii "[ " ++ (a.map fun v => v.bytes fl ++ ascii " ").flatten ++ ascii " ]") := by
  rw [WritePDF_eq_writeAll]
  obtain ⟨h1, h2⟩ := writeAll_accepts w sent hw ((PDFObject.array a).writes fl) s
  refine ⟨h1, ?_⟩
  rw [h2]
  simp only [PDFObject.writes, List.flatten_append, List.flatten_cons, List.flatten_nil,
    List.append_nil, elemWrites_flatten, List.append_assoc]

theorem PDFArray_WritePDF_output_witness :
    Accepts bufferWriter id
    ∧ ((PDFObject.array [.reference 1, .reference 2]).WritePDF intFormat GoString
        bufferWriter []).1 = none
    ∧ id ((PDFObject.array [.reference 1, .reference 2]).WritePDF intFormat GoString
        bufferWriter []).2 = id [] ++
        (ascii "[ "
          ++ ([PDFObject.reference 1, .reference 2].map fun v =>
                v.bytes intFormat ++ ascii " ").flatten
          ++ ascii " ]") :=
  ⟨fun _ _ => ⟨rfl, rfl⟩,
    PDFArray_WritePDF_output intFormat [.reference 1, .reference 2] bufferWriter id
      (fun _ _ => ⟨rfl, rfl⟩) []⟩

/-- C11 as stated fails: the array of the references 1 and 2 is written as
`"[ 1 0 R 2 0 R  ]"`, with two spaces before the bracket, and the empty array
as `"[  ]"`. -/
theorem PDFArray_space_after_last_element :
    (PDFObject.array [.reference 1, .reference 2]).WritePDF intFormat GoString bufferWriter []
        = (none, ascii "[ 1 0 R 2 0 R  ]")
      ∧ ascii "[ 1 0 R 2 0 R  ]" ≠ ascii "[ 1 0 R 2 0 R ]"
      ∧ (PDFObject.array []).WritePDF intFormat GoString bufferWriter []
        = (none, ascii "[  ]") := by
  decide

theorem hexEncode_append (p q : List Byte) : hexEncode (p ++ q) = hexEncode p ++ hexEncode q := by
  simp [hexEncode]

theorem hexPieces_flatten (fuel : Nat) :
    ∀ p : List Byte, p.length ≤ fuel → (hexPieces fuel p).flatten = hexEncode p := by
  induction fuel with
  | zero =>
    intro p h
    have hp : p = [] := List.eq_nil_of_length_eq_zero (by omega)
    subst hp
    rfl
  | succ fuel ih =>
    intro p h
    simp only [hexPieces]
    split
    · rw [List.flatten_cons, ih (p.drop 512) (by simp only [List.length_drop]; omega),
        ← hexEncode_append, List.take_append_drop]
    · have hp : p = [] := List.eq_nil_of_length_eq_zero (by omega)
      subst hp
      rfl

theorem hexEncode_cons (b : Byte) (d : List Byte) :
    hexEncode (b :: d)
      = digitByte (b.toNat / 16) :: digitByte (b.toNat % 16) :: hexEncode d := by
  simp [hexEncode]

theorem hexValue_digitByte (n : Nat) (h : n < 16) : hexValue (digitByte n) = n := by
  interval_cases n <;> rfl

theorem digitByte_isHex (n : Nat) (h : n < 16) :
    (48 ≤ (digitByte n).toNat ∧ (digitByte n).toNat ≤ 57)
      ∨ (97 ≤ (digitByte n).toNat ∧ (digitByte n).toNat ≤ 102) := by
  interval_cases n <;> decide

theorem hexDecode_hexEncode (d : List Byte) : hexDecode (hexEncode d) = d := by
  induction d with
  | nil => rfl
  | cons b d ih =>
    have hb := UInt8.toNat_lt_size b
    have hsz : UInt8.size = 256 := rfl
    rw [hexEncode_cons, hexDecode, ih,
      hexValue_digitByte _ (by omega), hexValue_digitByte _ (Nat.mod_lt _ (by omega)),
      Nat.div_add_mod']
    congr 1
    exact UInt8.toNat.inj (UInt8.toNat_ofNat_of_lt hb)

theorem hexEncode_length (d : List Byte) : (hexEncode d).length = 2 * d.length := by
  induction d with
  | nil => rfl
  | cons b d ih => rw [hexEncode_cons]; simp only [List.length_cons, ih]; omega

theorem hexEncode_digits (d : List Byte) :
    ∀ c ∈ hexEncode d,
      (48 ≤ c.toNat ∧ c.toNat ≤ 57) ∨ (97 ≤ c.toNat ∧ c.toNat ≤ 102) := by
  induction d with
  | nil => intro c hc; simp [hexEncode] at hc
  | cons b d ih =>
    have hb := UInt8.toNat_lt_size b
    have hsz : UInt8.size = 256 := rfl
    intro c hc
    rw [hexEncode_cons] at hc
    rcases List.mem_cons.mp hc with h | h
    · rw [h]; exact digitByte_isHex _ (by omega)
    · rcases List.mem_cons.mp h with h | h
      · rw [h]; exact digitByte_isHex _ (Nat.mod_lt _ (by omega))
      · exact ih c h

/-- C12: on a sink that accepts every write, `PDFString.WritePDF` returns no
error and the sink has taken `"<"`, then for each byte of `d` its high nibble
and its low nibble as hexadecimal digits (`0`-`9`, `a`-`f`), `2 * len(d)`
digits in all, then `">"`; decoding the digits gives `d` back. -/
theorem PDFString_WritePDF_output {F σ : Type} (fl : FloatFormat F) (d : GoString)
    (w : Writer σ) (sent : σ → GoString) (hw : Accepts w sent) (s : σ) :
    ((PDFObject.string d : PDFObject F).WritePDF fl σ w s).1 = none
    ∧ sent ((PDFObject.string d : PDFObject F).WritePDF fl σ w s).2 = sent s ++
        (ascii "<"
          ++ (d.map fun b => [digitByte (b.toNat / 16), digitByte (b.toNat % 16)]).flatten
          ++ ascii ">")
    ∧ (d.map fun b => [digitByte (b.toNat / 16), digitByte (b.toNat % 16)]).flatten.length
        = 2 * d.length
    ∧ (∀ c ∈ (d.map fun b => [digitByte (b.toNat / 16), digitByte (b.toNat % 16)]).flatten,
        (48 ≤ c.toNat ∧ c.toNat ≤ 57) ∨ (97 ≤ c.toNat ∧ c.toNat ≤ 102))
    ∧ hexDecode (d.map fun b => [digitByte (b.toNat / 16), digitByte (b.toNat % 16)]).flatten
        = d := by
  rw [WritePDF_eq_writeAll]
  obtain ⟨h1, h2⟩ := writeAll_accepts w sent hw ((PDFObject.string d : PDFObject F).writes fl) s
  refine ⟨h1, ?_, hexEncode_length d, hexEncode_digits d, hexDecode_hexEncode d⟩
  rw [h2]
  simp only [PDFObject.writes, PDFString.writes, List.flatten_append, List.flatten_cons,
    List.flatten_nil, List.append_nil, hexPieces_flatten d.length d (le_refl _), hexEncode]

theorem PDFString_WritePDF_output_witness :
    Accepts bufferWriter id
    ∧ (PDFObject.string (ascii "Hi~")).WritePDF intFormat GoString bufferWriter []
        = (none, ascii "<48697e>")
    ∧ hexDecode (ascii "48697e") = ascii "Hi~"
    ∧ ((PDFObject.string (ascii "Hi~") : PDFObject Int).WritePDF intFormat GoString
        bufferWriter []).1 = none :=
  ⟨fun _ _ => ⟨rfl, rfl⟩, by decide, by decide,
    (PDFString_WritePDF_output intFormat (ascii "Hi~") bufferWriter id
      (fun _ _ => ⟨rfl, rfl⟩) []).1⟩

/-- C13 (code defect): the names `"#20"` and `" "` are different and both are
written as `/#20`, since `#` is written as it is; so are the names `"\x10"` and
`"\x010"`, both written as `/#10`, since a code below 16 gets one digit. -/
theorem PDFName_WritePDF_not_injective :
    (PDFObject.name (ascii "#20")).WritePDF intFormat GoString bufferWriter []
        = (none, ascii "/#20")
      ∧ (PDFObject.name (ascii " ")).WritePDF intFormat GoString bufferWriter []
        = (none, ascii "/#20")
      ∧ ascii "#20" ≠ ascii " "
      ∧ (PDFObject.name [0x10]).WritePDF intFormat GoString bufferWriter []
        = (none, ascii "/#10")
      ∧ (PDFObject.name [0x01, 0x30]).WritePDF intFormat GoString bufferWriter []
        = (none, ascii "/#10")
      ∧ ([0x10] : GoString) ≠ [0x01, 0x30] := by
  decide

/-- C17 (code defect): the dictionary with the one key `"A B"` is written as
`"<<\n/A B true\n>>"`: the key is written as it is, where `PDFName.WritePDF`
writes the same name as `/A#20B`. -/
theorem PDFDictionary_key_not_escaped :
    (PDFObject.dictionary [(ascii "A B", .boolean true)]).WritePDF intFormat GoString
        bufferWriter [] = (none, ascii "<<\n/A B true\n>>")
      ∧ (PDFObject.name (ascii "A B")).WritePDF intFormat GoString bufferWriter []
        = (none, ascii "/A#20B") := by
  decide

/-! ## The trailer, the counting writer, the cipher: the claims -/

theorem trailer_bytes {F : Type} (fl : FloatFormat F) (n : Nat) (sizeFirst : Bool)
    (hfl : fl.PrintsInt ((n : Int) + 1)) :
    (PDFDocument.trailer fl n sizeFirst).bytes fl
      = ascii "<<\n"
        ++ (if sizeFirst then
              (ascii "/Size " ++ formatNat 10 (n + 1) ++ ascii "\n")
                ++ (ascii "/Root " ++ ascii "1 0 R" ++ ascii "\n")
            else
              (ascii "/Root " ++ ascii "1 0 R" ++ ascii "\n")
                ++ (ascii "/Size " ++ formatNat 10 (n + 1) ++ ascii "\n"))
        ++ ascii ">>" := by
  have hsize : fl.formatFloat (fl.ofInt ((n : Int) + 1)) = formatNat 10 (n + 1) := by
    have h : ((n : Int) + 1) = ((n + 1 : Nat) : Int) := by push_cast; rfl
    rw [hfl, h, formatInt_natCast]
  have hroot : ascii "1 0 R" = formatInt 1 ++ (ascii " " ++ (formatInt 0 ++ ascii " R")) := by
    decide
  have hk1 : ascii "/" ++ ascii "Size" ++ ascii " " = ascii "/Size " := by decide
  have hk2 : ascii "/" ++ ascii "Root" ++ ascii " " = ascii "/Root " := by decide
  have hnl : ascii "\n" = [10] := by decide
  rw [bytes_eq_flatten]
  cases sizeFirst <;>
    simp only [PDFDocument.trailer, PDFObject.writes, PDFDictionary.entryWrites,
      List.flatten_append, List.flatten_cons, List.flatten_nil, List.append_nil, hsize, hroot,
      hk1, hk2, hnl, List.append_assoc, if_true, if_false, Bool.false_eq_true]

/-- C15: on a sink that accepts every write, and with a library that prints
the `float64` of `N + 1` as the integer `N + 1`, what follows the reference
table of a document of `N` objects is `"\ntrailer\n"` and a dictionary of two
entries, `/Size` with the decimal integer `N + 1`, the count that the header
of the table has too, and `/Root` with the reference `1 0 R`, in the order in
which the map is visited; the `startxref` part follows. -/
theorem trailer_format {F σ : Type} (fl : FloatFormat F) (d : PDFDocument F)
    (sizeFirst : Bool) (w : Writer σ) (sent : σ → GoString) (hw : Accepts w sent)
    (hfl : fl.PrintsInt ((d.Objects.length : Int) + 1)) (s : σ) :
    ∃ (entries post : GoString),
      (d.WritePDF fl sizeFirst w s).1 = none
      ∧ sent (d.WritePDF fl sizeFirst w s).2 = sent s ++
          (ascii "%PDF-1.4\n\n" ++ PDFDocument.framed fl d.Objects 0
            ++ (ascii "xref\n0 " ++ formatNat 10 (d.Objects.length + 1) ++ ascii "\n"
                ++ (ascii "0000000000 65535 f" ++ ascii "\r\n") ++ entries)
            ++ (ascii "\ntrailer\n"
                ++ (ascii "<<\n"
                    ++ (if sizeFirst then
                          (ascii "/Size " ++ formatNat 10 (d.Objects.length + 1) ++ ascii "\n")
                            ++ (ascii "/Root " ++ ascii "1 0 R" ++ ascii "\n")
                        else
                          (ascii "/Root " ++ ascii "1 0 R" ++ ascii "\n")
                            ++ (ascii "/Size " ++ formatNat 10 (d.Objects.length + 1)
                                ++ ascii "\n"))
                    ++ ascii ">>"))
            ++ post)
      ∧ readDecimal (formatNat 10 (d.Objects.length + 1)) = d.Objects.length + 1 := by
  obtain ⟨h1, h2⟩ := PDFDocument_output fl d sizeFirst w sent hw s
  refine ⟨((PDFDocument.offsetsFrom fl d.Objects 0 10).map PDFDocument.xrefEntry).flatten,
    PDFDocument.startxref (ascii "%PDF-1.4\n\n" ++ PDFDocument.framed fl d.Objects 0).length,
    h1, ?_, readDecimal_formatNat _⟩
  rw [h2, trailer_bytes fl d.Objects.length sizeFirst hfl, PDFDocument.xrefTable, xrefHead_eq,
    offsetsFrom_length]
  simp only [List.append_assoc]

theorem trailer_format_witness :
    Accepts bufferWriter id
    ∧ intFormat.PrintsInt ((sampleDocument.Objects.length : Int) + 1)
    ∧ ∃ (entries post : GoString),
      (sampleDocument.WritePDF intFormat true bufferWriter []).1 = none
      ∧ id (sampleDocument.WritePDF intFormat true bufferWriter []).2 = id [] ++
          (ascii "%PDF-1.4\n\n" ++ PDFDocument.framed intFormat sampleDocument.Objects 0
            ++ (ascii "xref\n0 " ++ formatNat 10 (sampleDocument.Objects.length + 1) ++ ascii "\n"
                ++ (ascii "0000000000 65535 f" ++ ascii "\r\n") ++ entries)
            ++ (ascii "\ntrailer\n"
                ++ (ascii "<<\n"
                    ++ (if true = true then
                          (ascii "/Size " ++ formatNat 10 (sampleDocument.Objects.length + 1)
                            ++ ascii "\n")
                            ++ (ascii "/Root " ++ ascii "1 0 R" ++ ascii "\n")
                        else
                          (ascii "/Root " ++ ascii "1 0 R" ++ ascii "\n")
                            ++ (ascii "/Size " ++ formatNat 10 (sampleDocument.Objects.length + 1)
                                ++ ascii "\n"))
                    ++ ascii ">>"))
            ++ post)
      ∧ readDecimal (formatNat 10 (sampleDocument.Objects.length + 1))
          = sampleDocument.Objects.length + 1 :=
  ⟨fun _ _ => ⟨rfl, rfl⟩, rfl,
    trailer_format intFormat sampleDocument true bufferWriter id (fun _ _ => ⟨rfl, rfl⟩) rfl []⟩

/-- C18: after any sequence of calls of `WriteCounter.Write`, each call has
returned what the wrapped writer returned for it, the wrapped writer is in
the state the same calls put it in, and `Count` has grown by the sum of the
byte counts that the wrapped writer reported, failed and short writes
included. -/
theorem WriteCounter_count_exact {σ : Type} (w : Writer σ) (ps : List (List Byte))
    (c : WriteCounter σ) :
    (writeEach (WriteCounter.Write w) ps c).1 = (writeEach w ps c.Writer).1
    ∧ (writeEach (WriteCounter.Write w) ps c).2.Writer = (writeEach w ps c.Writer).2
    ∧ (writeEach (WriteCounter.Write w) ps c).2.Count
        = c.Count + reportedBytes (writeEach w ps c.Writer).1 ps := by
  induction ps generalizing c with
  | nil => exact ⟨rfl, rfl, rfl⟩
  | cons p ps ih =>
    obtain ⟨i1, i2, i3⟩ := ih
      { Writer := (w c.Writer p).2, Count := c.Count + (w c.Writer p).1.n p }
    refine ⟨?_, ?_, ?_⟩
    · simp only [writeEach, WriteCounter.Write]
      exact congrArg _ i1
    · simp only [writeEach, WriteCounter.Write]
      exact i2
    · simp only [writeEach, WriteCounter.Write, reportedBytes]
      rw [i3]
      simp only [Nat.add_assoc]

/-- An instance of the count: a sink that takes 2 bytes of its second call and
fails leaves `Count` at `3 + 2 + 1`. -/
theorem WriteCounter_count_example :
    (writeEach (WriteCounter.Write
        (fun (s : Nat) (_ : List Byte) =>
          if s = 1 then (WriteResult.fail 2 ⟨"short"⟩, s + 1) else (WriteResult.ok, s + 1)))
        [ascii "abc", ascii "defg", ascii "h"] ⟨0, 0⟩).1
      = [.ok, .fail 2 ⟨"short"⟩, .ok]
    ∧ (writeEach (WriteCounter.Write
        (fun (s : Nat) (_ : List Byte) =>
          if s = 1 then (WriteResult.fail 2 ⟨"short"⟩, s + 1) else (WriteResult.ok, s + 1)))
        [ascii "abc", ascii "defg", ascii "h"] ⟨0, 0⟩).2.Count = 6 := by
  decide

theorem byte_xor_xor (b k : Byte) : (b ^^^ k) ^^^ k = b := by
  apply UInt8.eq_of_toBitVec_eq
  show (b.toBitVec ^^^ k.toBitVec) ^^^ k.toBitVec = b.toBitVec
  rw [BitVec.xor_assoc, BitVec.xor_self, BitVec.xor_zero]

theorem Pad_Pad (sum512 : (Fin 64 → Byte) → (Fin 64 → Byte)) (p : List Byte) :
    ∀ c : ObfsCipher, ObfsCipher.Pad sum512 c (ObfsCipher.Pad sum512 c p) = p := by
  induction p with
  | nil => intro c; rfl
  | cons b rest ih =>
    intro c
    simp only [ObfsCipher.Pad, byte_xor_xor, ih]

theorem Pad_length (sum512 : (Fin 64 → Byte) → (Fin 64 → Byte)) (p : List Byte) :
    ∀ c : ObfsCipher, (ObfsCipher.Pad sum512 c p).length = p.length := by
  induction p with
  | nil => intro c; rfl
  | cons b rest ih =>
    intro c
    simp only [ObfsCipher.Pad, List.length_cons, ih]

/-- C16: for every cipher state, every function in the place of the hash and
every byte sequence `p`, padding twice with the same cipher gives `p` back and
padding keeps the length; the same holds for `PadStr`. The second call starts
from the same state as the first because `Pad` works on a copy of the cipher. -/
theorem Pad_involution (sum512 : (Fin 64 → Byte) → (Fin 64 → Byte)) (c : ObfsCipher)
    (p : List Byte) :
    ObfsCipher.Pad sum512 c (ObfsCipher.Pad sum512 c p) = p
    ∧ (ObfsCipher.Pad sum512 c p).length = p.length
    ∧ ObfsCipher.PadStr sum512 c (ObfsCipher.PadStr sum512 c p) = p
    ∧ (ObfsCipher.PadStr sum512 c p).length = p.length :=
  ⟨Pad_Pad sum512 p c, Pad_length sum512 p c, Pad_Pad sum512 p c, Pad_length sum512 p c⟩

/-- An instance of the padding: with the state all `0xFF` and a hash that
adds one to every byte, `"Hi"` becomes the bytes `0x37 0x69`, and `"Hi"` again. -/
theorem Pad_example :
    ObfsCipher.Pad (fun st i => st i + 1) ⟨fun _ => 0xFF⟩ (ascii "Hi") = [0x37, 0x69]
    ∧ ObfsCipher.Pad (fun st i => st i + 1) ⟨fun _ => 0xFF⟩ [0x37, 0x69] = ascii "Hi" := by
  decide

end Resume
